import Mathlib

/-!
Verification development for the librarian ingestion pipeline.

Strings are modelled as `List Char`.  Each definition is a direct
translation of the corresponding TypeScript function; the file keeps the
source names where Lean allows it.
-/

namespace Librarian

/-! ### Chunking engine (src/services/chunking.ts) -/

/-- JS `\s` / `String.trim` whitespace, restricted to the ASCII range used by
the repository's data (space, tab, newline, carriage return, vertical tab,
form feed). -/
def isWsChar (c : Char) : Bool :=
  c = ' ' || c = '\t' || c = '\n' || c = '\r' || c = Char.ofNat 11 || c = Char.ofNat 12

/-- JS `String.prototype.trim`. -/
def trim (l : List Char) : List Char :=
  ((l.dropWhile isWsChar).reverse.dropWhile isWsChar).reverse

/-- Helper for `split(/\r?\n/)`: accumulates the current line (reversed). -/
def splitLinesAux (cur : List Char) : List Char → List (List Char)
  | [] => [cur.reverse]
  | '\r' :: '\n' :: rest => cur.reverse :: splitLinesAux [] rest
  | '\n' :: rest => cur.reverse :: splitLinesAux [] rest
  | c :: rest => splitLinesAux (c :: cur) rest

/-- `md.split(/\r?\n/)` from `toSections`. -/
def splitLines (l : List Char) : List (List Char) :=
  splitLinesAux [] l

/-- `/^(#{1,3})\s+/.test(line)`: one to three leading `#` immediately followed
by a whitespace character (four or more `#` never match, because the character
after at most three `#` is another `#`). -/
def isHeading (l : List Char) : Bool :=
  let k := (l.takeWhile (fun c => c = '#')).length
  decide (1 ≤ k) && decide (k ≤ 3) &&
    (match l.drop k with
     | c :: _ => isWsChar c
     | [] => false)

/-- `Array.prototype.join('\n')` on a list of lines. -/
def joinNL : List (List Char) → List Char
  | [] => []
  | [l] => l
  | l :: ls => l ++ '\n' :: joinNL ls

/-- Section accumulator of `toSections`: `cur` holds the lines of the current
section in reverse order; committed sections are `cur.join('\n').trim()`. -/
def sectionsAux (cur : List (List Char)) : List (List Char) → List (List Char)
  | [] => if cur.length > 0 then [trim (joinNL cur.reverse)] else []
  | line :: rest =>
    if isHeading line then
      if cur.length > 0 then
        trim (joinNL cur.reverse) :: sectionsAux [line] rest
      else
        sectionsAux [line] rest
    else
      sectionsAux (line :: cur) rest

/-- `toSections` from chunking.ts, including the final
`filter((s) => s.length > 0)`. -/
def toSections (md : List Char) : List (List Char) :=
  (sectionsAux [] (splitLines md)).filter (fun s => decide (0 < s.length))

/-- Index of the last `'\n'` in a list, if any. -/
def lastNLIdx : List Char → Option Nat
  | [] => none
  | c :: rest =>
    match lastNLIdx rest with
    | some i => some (i + 1)
    | none => if c = '\n' then some 0 else none

/-- Resolution of a completed whitespace run for `split(/\n\s*\n/)`.
`runRev` is a maximal whitespace run starting with `'\n'`, reversed.  If the
run contains a second `'\n'`, the greedy separator ends at the run's last
`'\n'`: the part before the run is committed and the run's tail past that
`'\n'` starts the next part.  Otherwise no separator matches inside the run
and the whole run stays in the current part. -/
def parFlush (cur runRev : List Char) : List (List Char) × List Char :=
  let run := runRev.reverse
  match lastNLIdx (run.drop 1) with
  | some m => ([cur.reverse], (run.drop (m + 2)).reverse)
  | none => ([], runRev ++ cur)

/-- Splitter for `section.split(/\n\s*\n/)`: a separator is a `'\n'` followed
by greedy `\s*` and a final `'\n'`; equivalently, within a maximal whitespace
run beginning with `'\n'`, the separator extends to the run's last `'\n'`
(when one exists).  `inRun` indicates a whitespace run in progress,
accumulated reversed in `runRev`. -/
def splitParasAux (cur runRev : List Char) (inRun : Bool) :
    List Char → List (List Char)
  | [] =>
    if inRun then
      let fl := parFlush cur runRev
      fl.1 ++ [fl.2.reverse]
    else [cur.reverse]
  | c :: rest =>
    if inRun then
      if isWsChar c then splitParasAux cur (c :: runRev) true rest
      else
        let fl := parFlush cur runRev
        fl.1 ++ splitParasAux (c :: fl.2) [] false rest
    else
      if c = '\n' then splitParasAux cur [c] true rest
      else splitParasAux (c :: cur) [] false rest

/-- `toParagraphs` from chunking.ts (split at blank-line boundaries, keep the
parts whose trim is non-empty, untrimmed). -/
def toParagraphs (sec : List Char) : List (List Char) :=
  (splitParasAux [] [] false sec).filter (fun p => decide (0 < (trim p).length))

/-- Sentence-ending punctuation of the `(?<=[\.\!\?])` lookbehind. -/
def isPunct (c : Char) : Bool :=
  c = '.' || c = '!' || c = '?'

/-- Splitter for `paragraph.split(/(?<=[\.\!\?])\s+/)`: a separator is a
maximal whitespace run whose preceding character is sentence punctuation.
`skipping` indicates the whitespace run of a separator is being consumed;
the part before it has already been committed. -/
def splitSentAux (prevPunct skipping : Bool) (cur : List Char) :
    List Char → List (List Char)
  | [] => [cur.reverse]
  | c :: rest =>
    if skipping && isWsChar c then
      splitSentAux false true cur rest
    else if !skipping && prevPunct && isWsChar c then
      cur.reverse :: splitSentAux false true [] rest
    else
      splitSentAux (isPunct c) false (c :: cur) rest

/-- `MAX_PARA_LEN` from chunking.ts. -/
def MAX_PARA_LEN : Nat := 1200

/-- `MIN` from chunking.ts. -/
def MIN : Nat := 6000

/-- `MAX` from chunking.ts. -/
def MAX : Nat := 7500

/-- One step of the packing loop inside `splitBySentences`: state is
`(out, buf)`. -/
def sentStep (st : List (List Char) × List Char) (s : List Char) :
    List (List Char) × List Char :=
  let out := st.1
  let buf := st.2
  if (trim (buf ++ ' ' :: s)).length ≤ MAX_PARA_LEN then
    (out, (if buf.isEmpty then [] else buf ++ [' ']) ++ trim s)
  else
    ((if buf.isEmpty then out else out ++ [buf]), trim s)

/-- `splitBySentences` from chunking.ts. -/
def splitBySentences (p : List Char) : List (List Char) :=
  let sentences := splitSentAux false false [] p
  let st := sentences.foldl sentStep ([], [])
  if st.2.isEmpty then st.1 else st.1 ++ [st.2]

/-- The `pieces` array built by the first half of `chunkMarkdown`. -/
def piecesOf (md : List Char) : List (List Char) :=
  ((toSections md).map (fun sec =>
    ((toParagraphs sec).map (fun p =>
      if p.length ≤ MAX_PARA_LEN then [p]
      else (splitBySentences p).filterMap (fun s =>
        if decide (0 < (trim s).length) then some (trim s) else none))).flatten)).flatten

/-- The packing loop of `chunkMarkdown` (`buf` is the chunk under
construction); the `MIN` branch and its `else` are identical in the source and
are kept as written. -/
def packAux (buf : List Char) : List (List Char) → List (List Char)
  | [] => if decide (0 < (trim buf).length) then [buf] else []
  | piece :: rest =>
    if buf.length = 0 then packAux piece rest
    else
      let j := buf ++ '\n' :: '\n' :: piece
      if j.length ≤ MAX then packAux j rest
      else if MIN ≤ buf.length then buf :: packAux piece rest
      else buf :: packAux piece rest

/-- `chunkMarkdown` from chunking.ts. -/
def chunkMarkdown (md : List Char) : List (List Char) :=
  packAux [] (piecesOf md)

/-! ### Whitespace lemmas -/

/-- `l` contains a non-whitespace character. -/
def NonWs (l : List Char) : Prop :=
  ∃ c ∈ l, isWsChar c = false

/-! ### Scan orchestrator model (src/services/indexer.ts, `runScan`)

Database queries, the converter and the embedding service are modelled as
per-file oracles (`FileEnv`); a thrown JS error is an `Except.error` carrying
the optional `err.message`.  The per-document `books` row is tracked as a
`DocState`; each best-effort `UPDATE books SET status = ...` is an
`applyWrite` guarded by the oracle bit telling whether that query succeeded
(the source swallows these failures).  Every `waitForBusinessHoursIfNeeded`
call and heavy stage is recorded in an event trace. -/

/-- `err?.message ?? default`. -/
def msgOr (m : Option String) (d : String) : String := m.getD d

/-- Persisted `books`-row state for one document, plus the number of chunk
rows committed for it. -/
structure DocState where
  rowExists : Bool
  status : Option String
  errorText : Option String
  chunksCount : Option Nat
  lastIndexedAt : Bool
  committedChunks : Nat
deriving DecidableEq

/-- Row state before the reserving INSERT ran (or when it conflicted). -/
def DocState.absent : DocState :=
  ⟨false, none, none, none, false, 0⟩

/-- Row state right after the reserving INSERT: status columns are NULL. -/
def DocState.created : DocState :=
  ⟨true, none, none, none, false, 0⟩

/-- A best-effort status write: applied only when its query succeeded. -/
def applyWrite (ok : Bool) (f : DocState → DocState) (d : DocState) : DocState :=
  if ok then f d else d

/-- Which stage threw inside the batch loop. -/
inductive BatchFail where
  | embed (msg : Option String)
  | tx (msg : Option String)
deriving DecidableEq

/-- The rethrown error's message of a batch failure. -/
def BatchFail.msg : BatchFail → Option String
  | .embed e => e
  | .tx e => e

/-- Stage events of one pass, including the business-hours gate calls. -/
inductive Ev where
  | gate (stage : String)
  | convertEv
  | embedEv (batch : Nat)
  | txEv (batch : Nat)
deriving DecidableEq

/-- Per-file oracles for one `runScan` iteration: outcome of the reserving
INSERT (`rowCount` as Bool), success bits of each status-update query, and
the conversion / embedding / transaction results (per batch index). -/
structure FileEnv where
  bookId : String
  filename : String
  path : String
  insertRes : Except (Option String) Bool
  wScanned : Bool
  convert : Except (Option String) (List Char)
  wFailedParseConv : Bool
  wFailedParseEmpty : Bool
  embedRes : Nat → Except (Option String) Unit
  wFailedEmbed : Bool
  txRes : Nat → Except (Option String) Unit
  wFailedInsert : Bool
  wIndexed : Bool
  wChunksCount : Bool
  wOuterErr : Bool

/-- Routed outcome of one file: pushed to `newly_indexed`, to
`skipped_existing`, to `failed`, or (zero-chunk `return`) to none of them. -/
inductive Outcome where
  | newly (id filename path : String) (chunks : Nat)
  | skipped (filename : String)
  | failedOut (filename error : String)
  | silent
deriving DecidableEq

/-- `Number(config.EMBED_BATCH_SIZE) || 32`: zero or absent falls back to 32,
so the effective batch size is always positive. -/
def effBatchSize : Option Nat → Nat
  | none => 32
  | some 0 => 32
  | some (n + 1) => n + 1

/-- The embed-and-insert batch loop (steps 4–5 of `runScan`): for each batch,
gate on business hours, embed, then insert in one transaction; the first
failure writes the corresponding status and rethrows. -/
def runBatches (env : FileEnv) (bs : Nat) (idx : Nat) (d : DocState) :
    List (List Char) → DocState × Option BatchFail × List Ev
  | [] => (d, none, [])
  | c0 :: rest0 =>
    if h0 : bs = 0 then (d, none, [])
    else
      match env.embedRes idx with
      | .error e =>
        (applyWrite env.wFailedEmbed (fun d => { d with
            status := some "failed_embed",
            errorText := some (msgOr e "Embedding failed") }) d,
         some (.embed e), [Ev.gate "before-embed-batch", Ev.embedEv idx])
      | .ok _ =>
        match env.txRes idx with
        | .error e =>
          (applyWrite env.wFailedInsert (fun d => { d with
              status := some "failed_insert",
              errorText := some (msgOr e "Batch insert failed") }) d,
           some (.tx e), [Ev.gate "before-embed-batch", Ev.embedEv idx, Ev.txEv idx])
        | .ok _ =>
          let r := runBatches env bs (idx + 1)
            { d with committedChunks := d.committedChunks + ((c0 :: rest0).take bs).length }
            ((c0 :: rest0).drop bs)
          (r.1, r.2.1, Ev.gate "before-embed-batch" :: Ev.embedEv idx :: Ev.txEv idx :: r.2.2)
termination_by chunks => chunks.length
decreasing_by
  simp only [List.length_drop, List.length_cons]
  omega

/-- The row state after the best-effort `status = 'scanned'` write. -/
def d1Of (env : FileEnv) : DocState :=
  applyWrite env.wScanned
    (fun d => { d with status := some "scanned", errorText := none })
    DocState.created

/-- One file of a pass (the body of the `limit(async () => ...)` closure in
`runScan`): reserve by INSERT .. ON CONFLICT DO NOTHING, mark scanned,
convert, chunk, then run the batch loop; every thrown error is caught at this
level.  Returns the routed outcome, the final row state and the event trace. -/
def processFile (bs : Nat) (env : FileEnv) : Outcome × DocState × List Ev :=
  match env.insertRes with
  | .error e =>
    (.failedOut env.filename (msgOr e "Unknown error"), DocState.absent, [])
  | .ok false => (.skipped env.filename, DocState.absent, [])
  | .ok true =>
    let d1 := d1Of env
    match env.convert with
    | .error e =>
      let d2 := applyWrite env.wFailedParseConv (fun d => { d with
          status := some "failed_parse",
          errorText := some (msgOr e "PDF->Markdown conversion failed") }) d1
      let d3 := applyWrite env.wOuterErr (fun d => { d with
          errorText := some (msgOr e "Unknown error") }) d2
      (.failedOut env.filename (msgOr e "Unknown error"), d3,
       [Ev.gate "before-convert", Ev.convertEv])
    | .ok md =>
      let chunks := chunkMarkdown md
      if chunks.length = 0 then
        let d2 := applyWrite env.wFailedParseEmpty (fun d => { d with
            status := some "failed_parse",
            errorText := some "No chunks produced" }) d1
        (.silent, d2, [Ev.gate "before-convert", Ev.convertEv])
      else
        let r := runBatches env bs 0 d1 chunks
        match r.2.1 with
        | some bf =>
          let d3 := applyWrite env.wOuterErr (fun d => { d with
              errorText := some (msgOr bf.msg "Unknown error") }) r.1
          (.failedOut env.filename (msgOr bf.msg "Unknown error"), d3,
           Ev.gate "before-convert" :: Ev.convertEv :: r.2.2)
        | none =>
          let d3 := applyWrite env.wIndexed (fun d => { d with
              status := some "indexed", errorText := none,
              lastIndexedAt := true }) r.1
          let d4 := applyWrite (env.wIndexed && env.wChunksCount) (fun d => { d with
              chunksCount := some chunks.length }) d3
          (.newly env.bookId env.filename env.path chunks.length, d4,
           Ev.gate "before-convert" :: Ev.convertEv :: r.2.2)

/-- The outcomes of one pass, in file order. -/
def outcomesOf (bs : Nat) (envs : List FileEnv) : List Outcome :=
  envs.map (fun e => (processFile bs e).1)

/-- Routing of an outcome into `newly_indexed`. -/
def newlyOf : Outcome → Option (String × String × String × Nat)
  | .newly i f p n => some (i, f, p, n)
  | _ => none

/-- Routing of an outcome into `skipped_existing`. -/
def skippedOf : Outcome → Option String
  | .skipped f => some f
  | _ => none

/-- Routing of an outcome into `failed`. -/
def failedOf : Outcome → Option (String × String)
  | .failedOut f e => some (f, e)
  | _ => none

/-- An outcome routed into none of the three lists (the zero-chunk
`return`). -/
def Outcome.isSilent : Outcome → Bool
  | .silent => true
  | _ => false

/-- `ScanResult` from indexer.ts (`duration_ms` is wall clock, not
modelled). -/
structure ScanResult where
  correlation_id : String
  scanned_count : Nat
  newly_indexed_count : Nat
  newly_indexed : List (String × String × String × Nat)
  skipped_existing : List String
  failed : List (String × String)
deriving DecidableEq

/-- `runScan` over the oracle environments of the scanned files. -/
def runScan (bs : Nat) (correlationId : String) (envs : List FileEnv) :
    ScanResult :=
  let outs := outcomesOf bs envs
  let ni := outs.filterMap newlyOf
  { correlation_id := correlationId
    scanned_count := envs.length
    newly_indexed_count := ni.length
    newly_indexed := ni
    skipped_existing := outs.filterMap skippedOf
    failed := outs.filterMap failedOf }

/-- The event trace of one pass: the run-start gate, then each file's
events. -/
def runScanEvents (bs : Nat) (envs : List FileEnv) : List Ev :=
  Ev.gate "run-start" :: (envs.map (fun e => (processFile bs e).2.2)).flatten

/-- A file whose conversion succeeds but yields no chunks (empty Markdown
output): every oracle succeeds. -/
def envZeroChunks : FileEnv :=
  { bookId := "b1", filename := "f.pdf", path := "/lib/f.pdf"
    insertRes := .ok true, wScanned := true
    convert := .ok []
    wFailedParseConv := true, wFailedParseEmpty := true
    embedRes := fun _ => .ok (), wFailedEmbed := true
    txRes := fun _ => .ok (), wFailedInsert := true
    wIndexed := true, wChunksCount := true, wOuterErr := true }

/-! ### Claim C2 -/

/-- All best-effort status-update queries of one file succeed. -/
def allWritesOk (env : FileEnv) : Prop :=
  env.wScanned = true ∧ env.wFailedParseConv = true ∧
  env.wFailedParseEmpty = true ∧ env.wFailedEmbed = true ∧
  env.wFailedInsert = true ∧ env.wIndexed = true ∧
  env.wChunksCount = true ∧ env.wOuterErr = true

/-- Conversion-failure oracle environment: all writes succeed, the converter
throws. -/
def envConvFail : FileEnv :=
  { envZeroChunks with convert := .error (some "bad pdf") }

/-- Embedding-failure oracle environment: the first embedding batch throws. -/
def envEmbedFail : FileEnv :=
  { envZeroChunks with
    convert := .ok ['x']
    embedRes := fun _ => .error (some "dim mismatch") }

/-! ### Claim C4: atomic reservation (INSERT .. ON CONFLICT (filename) DO NOTHING)

The `books` table (001_init.sql) has `filename TEXT NOT NULL UNIQUE`; the
reserving INSERT is one atomic statement, so any set of concurrent attempts
serialises into a sequence of `reserveInsert` steps. -/

/-- One `books` row, as far as reservation is concerned. -/
structure BookRow where
  id : String
  filename : String
  path : String
deriving DecidableEq

/-- `INSERT INTO books ... ON CONFLICT (filename) DO NOTHING` against the
unique filename index: one atomic step returning the new table and the
`rowCount = 1` flag. -/
def reserveInsert (db : List BookRow) (b : BookRow) : List BookRow × Bool :=
  if db.any (fun r => r.filename = b.filename) then (db, false)
  else (db ++ [b], true)

/-- A serialisation of N concurrent reservation attempts: the resulting table
and each attempt's observed insert flag, in serialisation order. -/
def runReservations (db : List BookRow) : List BookRow → List BookRow × List Bool
  | [] => (db, [])
  | b :: rest =>
    let step := reserveInsert db b
    let r := runReservations step.1 rest
    (r.1, step.2 :: r.2)

/-! ### Claim C6: conversion failure modes (src/services/markitdown.ts)

The subprocess's externally visible behaviour is modelled by the first
settling event of the promise in `convertPdfToMarkdown`. -/

/-- `MarkitDownErrorCode` from markitdown.ts: the error-code union has
exactly these three members. -/
inductive MarkitDownErrorCode where
  | EXIT_NON_ZERO
  | TIMEOUT
  | SIZE_EXCEEDED
deriving DecidableEq

/-- `MarkitDownError` from markitdown.ts. -/
structure MarkitDownError where
  code : MarkitDownErrorCode
  message : String
  stderr : Option (List Char)
deriving DecidableEq

/-- The first settling event of the conversion promise: the timeout timer,
the streamed-size cap, the spawn `error` event (`errText` is the already
coerced `err?.message ?? String(err)`), or process close. -/
inductive ConvEvent where
  | timeout
  | sizeExceeded
  | spawnError (errText : String)
  | closed (code : Int) (stdout stderr : List Char)
deriving DecidableEq

/-- `convertPdfToMarkdown` from markitdown.ts, by settling event. -/
def convertPdfToMarkdown (timeoutMs maxBytes : Nat) :
    ConvEvent → Except MarkitDownError (List Char)
  | .timeout =>
    .error ⟨.TIMEOUT, "markitdown timed out after " ++ toString timeoutMs ++ "ms", none⟩
  | .sizeExceeded =>
    .error ⟨.SIZE_EXCEEDED, "markitdown output exceeded " ++ toString maxBytes ++ " bytes", none⟩
  | .spawnError errText =>
    .error ⟨.EXIT_NON_ZERO, "Failed to spawn markitdown: " ++ errText, none⟩
  | .closed code stdout stderr =>
    if code ≠ 0 then
      .error ⟨.EXIT_NON_ZERO, "markitdown exited with code " ++ toString code,
        some (stderr.take 2000)⟩
    else .ok stdout

/-- The events on which the source calls `proc.kill('SIGKILL')`. -/
def procKilled : ConvEvent → Bool
  | .timeout => true
  | .sizeExceeded => true
  | _ => false

/-- The error code of a conversion outcome, if it failed. -/
def convErrCode (r : Except MarkitDownError (List Char)) :
    Option MarkitDownErrorCode :=
  match r with
  | .error e => some e.code
  | .ok _ => none

/-! ### Claim C9: scheduler tick while running (src/services/scanScheduler.ts) -/

/-- In-memory scheduler state (module-level variables of scanScheduler.ts;
times are abstract instants). -/
structure SchedState where
  started : Bool
  isRunning : Bool
  runsCompleted : Nat
  lastCorrelationId : Option String
  lastRunStart : Option Nat
  lastRunEnd : Option Nat
  lastRunDurationMs : Option Nat
  lastError : Option String
  lastResult : Option ScanResult
  lastTickAt : Nat
deriving DecidableEq

/-- The synchronous prefix of `attemptRunIfIdle`, up to the `await runScan`:
if a pass is already running, return unchanged without starting one;
otherwise claim the running flag and record correlation id / start time. -/
def attemptBegin (now : Nat) (cid : String) (s : SchedState) :
    SchedState × Bool :=
  if s.isRunning then (s, false)
  else
    ({ s with
        isRunning := true
        lastError := none
        lastCorrelationId := some cid
        lastRunStart := some now }, true)

/-- The `finally`/`catch` tail of `attemptRunIfIdle` once the awaited pass
settles. -/
def attemptEnd (now : Nat) (res : Except String ScanResult) (s : SchedState) :
    SchedState :=
  { s with
    lastResult := match res with | .ok r => some r | .error _ => s.lastResult
    lastError := match res with | .ok _ => s.lastError | .error m => some m
    lastRunEnd := some now
    lastRunDurationMs :=
      match s.lastRunStart with | some st => some (now - st) | none => none
    isRunning := false
    runsCompleted := s.runsCompleted + 1 }

/-- `tick()`: records `lastTickAt = Date.now()` unconditionally, then runs
the idle check. -/
def tick (now : Nat) (cid : String) (s : SchedState) : SchedState × Bool :=
  attemptBegin now cid { s with lastTickAt := now }

/-- Scheduler state plus the number of passes currently in flight. -/
structure SchedWorld where
  sched : SchedState
  activePasses : Nat
deriving DecidableEq

/-- An interleaving event: a timer/manual tick, or a running pass settling. -/
inductive SchedStep where
  | tickAt (now : Nat) (cid : String)
  | finishAt (now : Nat) (res : Except String ScanResult)

/-- Interleaved execution: a tick may start a pass; a finish settles one. -/
def schedStep (w : SchedWorld) : SchedStep → SchedWorld
  | .tickAt now cid =>
    let r := tick now cid w.sched
    { sched := r.1, activePasses := w.activePasses + (if r.2 then 1 else 0) }
  | .finishAt now res =>
    if 0 < w.activePasses then
      { sched := attemptEnd now res w.sched, activePasses := w.activePasses - 1 }
    else w

/-- A full trace of ticks and pass completions. -/
def schedRun (w : SchedWorld) (steps : List SchedStep) : SchedWorld :=
  steps.foldl schedStep w

/-- Module-load state of scanScheduler.ts. -/
def initSchedWorld : SchedWorld :=
  ⟨⟨false, false, 0, none, none, none, none, none, none, 0⟩, 0⟩

/-- The number of in-flight passes mirrors the `isRunning` flag. -/
def SchedInv (w : SchedWorld) : Prop :=
  w.activePasses = (if w.sched.isRunning then 1 else 0)

/-- A scheduler state with a pass in flight. -/
def sRunning : SchedState :=
  ⟨true, true, 1, some "c1", some 2, none, none, none, none, 0⟩

/-! ### Claim C5: single-document ingest (src/services/indexer.ts, `indexSingleFile`)

The hash-duplicate check (steps 1) sits OUTSIDE the function's try/catch, so
a thrown query there rejects the whole call; everything inside the try is
caught and mapped to a structured result.  Status-update queries inside the
try that are not individually wrapped route их failure to the catch-all. -/

/-- `SingleFileResult.status` union from indexer.ts. -/
inductive SFStatus where
  | indexed
  | already_exists
  | failed_parse
  | failed_embed
  | failed_insert
deriving DecidableEq

/-- `SingleFileResult` from indexer.ts. -/
structure SingleFileResult where
  success : Bool
  book_id : String
  filename : String
  chunks_count : Nat
  status : SFStatus
  error : Option String
deriving DecidableEq

/-- Oracles for one `indexSingleFile` call. -/
structure SingleEnv where
  bookId : String
  filename : String
  path : String
  fileHash : Option String
  hashLookup : Except (Option String) (Option (String × String))
  hashChunkCount : Except (Option String) Nat
  insertRes : Except (Option String) Bool
  nameLookup : Except (Option String) (Option String)
  nameChunkCount : Except (Option String) Nat
  wScanned : Except (Option String) Unit
  convert : Except (Option String) (List Char)
  wFailedParse : Except (Option String) Unit
  wFailedParseEmpty : Except (Option String) Unit
  embedRes : Nat → Except (Option String) Unit
  wFailedEmbed : Except (Option String) Unit
  txRes : Nat → Except (Option String) Unit
  wFailedInsert : Except (Option String) Unit
  wIndexed : Except (Option String) Unit

/-- The catch-all result of `indexSingleFile`: any error escaping inside the
try yields `failed_parse` with the error's message. -/
def catchAll (env : SingleEnv) (m : Option String) : SingleFileResult :=
  { success := false, book_id := env.bookId, filename := env.filename,
    chunks_count := 0, status := .failed_parse,
    error := some (msgOr m "Unknown error") }

/-- The embed-and-insert batch loop of `indexSingleFile` (steps 5): `none`
when all batches commit, otherwise the early-returned failure result. -/
def sBatches (env : SingleEnv) (bs : Nat) (idx : Nat) :
    List (List Char) → Option SingleFileResult
  | [] => none
  | c0 :: rest0 =>
    if h0 : bs = 0 then none
    else
      match env.embedRes idx with
      | .error e =>
        some (match env.wFailedEmbed with
          | .error e2 => catchAll env e2
          | .ok _ =>
            { success := false, book_id := env.bookId, filename := env.filename,
              chunks_count := 0, status := .failed_embed,
              error := some (msgOr e "Embedding failed") })
      | .ok _ =>
        match env.txRes idx with
        | .error e =>
          some (match env.wFailedInsert with
            | .error e2 => catchAll env e2
            | .ok _ =>
              { success := false, book_id := env.bookId, filename := env.filename,
                chunks_count := 0, status := .failed_insert,
                error := some (msgOr e "Batch insert failed") })
        | .ok _ => sBatches env bs (idx + 1) ((c0 :: rest0).drop bs)
termination_by chunks => chunks.length
decreasing_by
  simp only [List.length_drop, List.length_cons]
  omega

/-- Steps 2b–6 of `indexSingleFile` (after the reservation decided to
proceed): mark scanned, convert, chunk, run the batches, mark indexed. -/
def restOf (bs : Nat) (env : SingleEnv) : SingleFileResult :=
  match env.wScanned with
  | .error e => catchAll env e
  | .ok _ =>
    match env.convert with
    | .error e =>
      match env.wFailedParse with
      | .error e2 => catchAll env e2
      | .ok _ =>
        { success := false, book_id := env.bookId, filename := env.filename,
          chunks_count := 0, status := .failed_parse,
          error := some (msgOr e "PDF->Markdown conversion failed") }
    | .ok md =>
      let chunks := chunkMarkdown md
      if chunks.length = 0 then
        match env.wFailedParseEmpty with
        | .error e2 => catchAll env e2
        | .ok _ =>
          { success := false, book_id := env.bookId, filename := env.filename,
            chunks_count := 0, status := .failed_parse,
            error := some "No chunks produced from PDF" }
      else
        match sBatches env bs 0 chunks with
        | some r => r
        | none =>
          match env.wIndexed with
          | .error e => catchAll env e
          | .ok _ =>
            { success := true, book_id := env.bookId, filename := env.filename,
              chunks_count := chunks.length, status := .indexed, error := none }

/-- The body of the try/catch of `indexSingleFile` (steps 2–6): total, since
every thrown error inside is caught.  A filename conflict re-checks by
filename; when the re-check finds a row, its id and committed chunk count
are returned as `already_exists`; when it finds none, the source falls
through and proceeds with the never-inserted `bookId`. -/
def tryBody (bs : Nat) (env : SingleEnv) : SingleFileResult :=
  match env.insertRes with
  | .error e => catchAll env e
  | .ok true => restOf bs env
  | .ok false =>
    match env.nameLookup with
    | .error e => catchAll env e
    | .ok (some id2) =>
      match env.nameChunkCount with
      | .error e => catchAll env e
      | .ok cnt =>
        { success := true, book_id := id2, filename := env.filename,
          chunks_count := cnt, status := .already_exists, error := none }
    | .ok none => restOf bs env

/-- `indexSingleFile` from indexer.ts: the hash-duplicate lookup (and its
chunk-count query) run before the try/catch, so their errors reject the
call; the rest always returns a structured result. -/
def indexSingleFile (bs : Nat) (env : SingleEnv) :
    Except (Option String) SingleFileResult :=
  match env.fileHash with
  | some _ =>
    match env.hashLookup with
    | .error e => .error e
    | .ok (some (id, fn)) =>
      match env.hashChunkCount with
      | .error e => .error e
      | .ok cnt =>
        .ok { success := true, book_id := id, filename := fn,
              chunks_count := cnt, status := .already_exists, error := none }
    | .ok none => .ok (tryBody bs env)
  | none => .ok (tryBody bs env)

/-- All oracles succeed trivially; used as a base for concrete variants. -/
def sEnvBase : SingleEnv :=
  { bookId := "b1", filename := "up.pdf", path := "/up/up.pdf"
    fileHash := some "h1"
    hashLookup := .ok none
    hashChunkCount := .ok 0
    insertRes := .ok true
    nameLookup := .ok none
    nameChunkCount := .ok 0
    wScanned := .ok ()
    convert := .ok ['x']
    wFailedParse := .ok ()
    wFailedParseEmpty := .ok ()
    embedRes := fun _ => .ok ()
    wFailedEmbed := .ok ()
    txRes := fun _ => .ok ()
    wFailedInsert := .ok ()
    wIndexed := .ok () }

/-! ### Claim C8: business-hours gate (indexer.ts lines 20–65 and its call
sites)

`Intl.DateTimeFormat` is not embeddable; the local-hour extraction in the
configured timezone is modelled as a stream `h : Nat → Nat` of the hour
observed at the k-th check of one `waitForBusinessHoursIfNeeded` call.  The
polling loop (check on entry; then re-check, sleeping 60 s after each failed
re-check) returns at the first in-window check; `Nat.find` is that index. -/

/-- `BUSINESS_TZ` from indexer.ts. -/
def BUSINESS_TZ : String := "Europe/Amsterdam"

/-- `isWithinBusinessHoursEuropeAmsterdam`: `hour >= 8 && hour < 21`. -/
def isWithinBusinessHoursEuropeAmsterdam (hour : Nat) : Bool :=
  decide (8 ≤ hour) && decide (hour < 21)

/-- The `sleep(60_000)` interval of the polling loop. -/
def SLEEP_MS : Nat := 60000

/-- The check index at which `waitForBusinessHoursIfNeeded` returns: the
first check that observes an in-window hour. -/
def waitPollIndex (h : Nat → Nat)
    (hex : ∃ k, isWithinBusinessHoursEuropeAmsterdam (h k) = true) : Nat :=
  Nat.find hex

/-- The number of `sleep(SLEEP_MS)` calls performed: one per failed re-check
(the entry check and the first re-check are back to back). -/
def waitSleepCount (h : Nat → Nat)
    (hex : ∃ k, isWithinBusinessHoursEuropeAmsterdam (h k) = true) : Nat :=
  waitPollIndex h hex - 1

/-- Conversion events of a trace. -/
def isConvertEv : Ev → Bool
  | .convertEv => true
  | _ => false

/-- Embedding-batch events of a trace. -/
def isEmbedEv : Ev → Bool
  | .embedEv _ => true
  | _ => false

/-- Chain check: within `prev :: l`, every element satisfying `p` is
immediately preceded by the gate call `Ev.gate g`. -/
def chainOk (g : String) (p : Ev → Bool) : Ev → List Ev → Bool
  | _, [] => true
  | prev, e :: rest => (!(p e) || decide (prev = Ev.gate g)) && chainOk g p e rest

/-- Every element of `l` satisfying `p` is immediately preceded by
`Ev.gate g` (the head may not satisfy `p`). -/
def gatedB (g : String) (p : Ev → Bool) : List Ev → Bool
  | [] => true
  | e :: rest => !(p e) && chainOk g p e rest

lemma not_allWs_iff {l : List Char} :
    ¬(∀ c ∈ l, isWsChar c = true) ↔ NonWs l := by
  simp [NonWs]

lemma mem_dropWhile_of_neg {α : Type} {p : α → Bool} {c : α} {l : List α}
    (hc : c ∈ l) (hp : p c = false) : c ∈ l.dropWhile p := by
  have hsplit : c ∈ l.takeWhile p ++ l.dropWhile p := by
    rw [List.takeWhile_append_dropWhile]; exact hc
  rcases List.mem_append.mp hsplit with h | h
  · exact absurd (List.mem_takeWhile_imp h) (by simp [hp])
  · exact h

lemma mem_trim {c : Char} {l : List Char} (h : c ∈ trim l) : c ∈ l := by
  have h2 : c ∈ (l.dropWhile isWsChar).reverse.dropWhile isWsChar := by
    simpa [trim] using h
  have h3 := List.Sublist.mem h2 (List.dropWhile_sublist _)
  have h4 := List.mem_reverse.mp h3
  exact List.Sublist.mem h4 (List.dropWhile_sublist _)

lemma trim_eq_nil_of_allWs {l : List Char} (h : ∀ c ∈ l, isWsChar c = true) :
    trim l = [] := by
  have hd : l.dropWhile isWsChar = [] := List.dropWhile_eq_nil_iff.mpr h
  simp [trim, hd]

lemma nonWs_trim {l : List Char} (h : NonWs l) : NonWs (trim l) := by
  obtain ⟨c, hc, hw⟩ := h
  refine ⟨c, ?_, hw⟩
  have h1 : c ∈ l.dropWhile isWsChar := mem_dropWhile_of_neg hc hw
  have h2 : c ∈ (l.dropWhile isWsChar).reverse.dropWhile isWsChar :=
    mem_dropWhile_of_neg (List.mem_reverse.mpr h1) hw
  simpa [trim] using h2

lemma trim_ne_nil_iff {l : List Char} : trim l ≠ [] ↔ NonWs l := by
  constructor
  · intro h
    by_contra hn
    refine h (trim_eq_nil_of_allWs ?_)
    by_contra hall
    exact hn (not_allWs_iff.mp hall)
  · intro h
    obtain ⟨c, hc, _⟩ := nonWs_trim h
    exact List.ne_nil_of_mem hc

/-! ### Line splitting and sectioning lemmas -/

lemma splitLinesAux_allWs (cur : List Char) (l : List Char)
    (hc : ∀ c ∈ cur, isWsChar c = true) (hl : ∀ c ∈ l, isWsChar c = true) :
    ∀ line ∈ splitLinesAux cur l, ∀ c ∈ line, isWsChar c = true := by
  induction cur, l using splitLinesAux.induct with
  | case1 cur => simpa [splitLinesAux] using hc
  | case2 cur rest ih =>
    intro line hline
    simp only [splitLinesAux, List.mem_cons] at hline
    rcases hline with rfl | hline
    · simpa using hc
    · exact ih (by simp) (fun c hcm => hl c (by simp [hcm])) line hline
  | case3 cur rest ih =>
    intro line hline
    simp only [splitLinesAux, List.mem_cons] at hline
    rcases hline with rfl | hline
    · simpa using hc
    · exact ih (by simp) (fun c hcm => hl c (by simp [hcm])) line hline
  | case4 cur c rest h1 h2 ih =>
    intro line hline
    simp only [splitLinesAux] at hline
    refine ih ?_ (fun d hdm => hl d (by simp [hdm])) line hline
    intro d hd
    rcases List.mem_cons.mp hd with rfl | hd
    · exact hl d (by simp)
    · exact hc d hd

lemma splitLinesAux_nonWs (cur : List Char) (l : List Char)
    (h : NonWs cur ∨ NonWs l) :
    ∃ line ∈ splitLinesAux cur l, NonWs line := by
  induction cur, l using splitLinesAux.induct with
  | case1 cur =>
    refine ⟨cur.reverse, by simp [splitLinesAux], ?_⟩
    rcases h with h | h
    · obtain ⟨c, hc, hw⟩ := h; exact ⟨c, by simpa using hc, hw⟩
    · obtain ⟨c, hc, _⟩ := h; simp at hc
  | case2 cur rest ih =>
    rcases h with h | h
    · obtain ⟨c, hc, hw⟩ := h
      exact ⟨cur.reverse, by simp [splitLinesAux], c, by simpa using hc, hw⟩
    · obtain ⟨c, hc, hw⟩ := h
      rcases List.mem_cons.mp hc with rfl | hc
      · simp [isWsChar] at hw
      · rcases List.mem_cons.mp hc with rfl | hc
        · simp [isWsChar] at hw
        · obtain ⟨line, hline, hnw⟩ := ih (Or.inr ⟨c, hc, hw⟩)
          exact ⟨line, by simp [splitLinesAux, hline], hnw⟩
  | case3 cur rest ih =>
    rcases h with h | h
    · obtain ⟨c, hc, hw⟩ := h
      exact ⟨cur.reverse, by simp [splitLinesAux], c, by simpa using hc, hw⟩
    · obtain ⟨c, hc, hw⟩ := h
      rcases List.mem_cons.mp hc with rfl | hc
      · simp [isWsChar] at hw
      · obtain ⟨line, hline, hnw⟩ := ih (Or.inr ⟨c, hc, hw⟩)
        exact ⟨line, by simp [splitLinesAux, hline], hnw⟩
  | case4 cur c rest h1 h2 ih =>
    have hstep : splitLinesAux cur (c :: rest) = splitLinesAux (c :: cur) rest := by
      simp [splitLinesAux]
    rw [hstep]
    rcases h with h | h
    · obtain ⟨d, hd, hw⟩ := h
      exact ih (Or.inl ⟨d, by simp [hd], hw⟩)
    · obtain ⟨d, hd, hw⟩ := h
      rcases List.mem_cons.mp hd with rfl | hd
      · exact ih (Or.inl ⟨d, by simp, hw⟩)
      · exact ih (Or.inr ⟨d, hd, hw⟩)

lemma mem_joinNL {c : Char} {ln : List Char} {ls : List (List Char)}
    (hc : c ∈ ln) (hln : ln ∈ ls) : c ∈ joinNL ls := by
  induction ls with
  | nil => simp at hln
  | cons hd tl ih =>
    rcases List.mem_cons.mp hln with rfl | hln
    · cases tl with
      | nil => simpa [joinNL] using hc
      | cons a b => simp [joinNL, hc]
    · cases tl with
      | nil => simp at hln
      | cons a b =>
        simp only [joinNL, List.mem_append, List.mem_cons]
        right; right
        have := ih hln
        simpa [joinNL] using this

lemma joinNL_allWs {ls : List (List Char)}
    (h : ∀ ln ∈ ls, ∀ c ∈ ln, isWsChar c = true) :
    ∀ c ∈ joinNL ls, isWsChar c = true := by
  induction ls with
  | nil => simp [joinNL]
  | cons hd tl ih =>
    cases tl with
    | nil => simpa [joinNL] using h hd (by simp)
    | cons a b =>
      intro c hc
      rw [show joinNL (hd :: a :: b) = hd ++ '\n' :: joinNL (a :: b) from rfl] at hc
      rcases List.mem_append.mp hc with hc | hc
      · exact h hd (by simp) c hc
      · rcases List.mem_cons.mp hc with rfl | hc
        · simp [isWsChar]
        · exact ih (fun ln hln => h ln (by simp [hln])) c hc

lemma sectionsAux_allWs (cur : List (List Char)) (lines : List (List Char))
    (hc : ∀ ln ∈ cur, ∀ c ∈ ln, isWsChar c = true)
    (hl : ∀ ln ∈ lines, ∀ c ∈ ln, isWsChar c = true) :
    ∀ s ∈ sectionsAux cur lines, s = [] := by
  induction lines generalizing cur with
  | nil =>
    intro s hs
    simp only [sectionsAux] at hs
    split at hs
    · simp only [List.mem_singleton] at hs
      subst hs
      exact trim_eq_nil_of_allWs (joinNL_allWs (fun ln hln => hc ln (by simpa using hln)))
    · simp at hs
  | cons line rest ih =>
    intro s hs
    simp only [sectionsAux] at hs
    split at hs
    · split at hs
      · rcases List.mem_cons.mp hs with rfl | hs
        · exact trim_eq_nil_of_allWs (joinNL_allWs (fun ln hln => hc ln (by simpa using hln)))
        · exact ih [line] (fun ln hln => by
            simp only [List.mem_singleton] at hln; subst hln; exact hl _ (by simp))
            (fun ln hln => hl ln (by simp [hln])) s hs
      · exact ih [line] (fun ln hln => by
          simp only [List.mem_singleton] at hln; subst hln; exact hl _ (by simp))
          (fun ln hln => hl ln (by simp [hln])) s hs
    · exact ih (line :: cur) (fun ln hln => by
        rcases List.mem_cons.mp hln with rfl | hln
        · exact hl ln (by simp)
        · exact hc ln hln)
        (fun ln hln => hl ln (by simp [hln])) s hs

lemma sectionsAux_nonWs (cur : List (List Char)) (lines : List (List Char))
    (h : (∃ ln ∈ cur, NonWs ln) ∨ (∃ ln ∈ lines, NonWs ln)) :
    ∃ s ∈ sectionsAux cur lines, NonWs s := by
  induction lines generalizing cur with
  | nil =>
    rcases h with ⟨ln, hln, c, hc, hw⟩ | ⟨ln, hln, _⟩
    · have hcur : cur.length > 0 := by
        cases cur with
        | nil => simp at hln
        | cons a b => simp
      refine ⟨trim (joinNL cur.reverse), ?_, ?_⟩
      · simp [sectionsAux, hcur]
      · exact nonWs_trim ⟨c, mem_joinNL hc (by simpa using hln), hw⟩
    · simp at hln
  | cons line rest ih =>
    simp only [sectionsAux]
    split
    · split
      · rcases h with ⟨ln, hln, c, hc, hw⟩ | ⟨ln, hln, hnw⟩
        · exact ⟨trim (joinNL cur.reverse), by simp,
            nonWs_trim ⟨c, mem_joinNL hc (by simpa using hln), hw⟩⟩
        · rcases List.mem_cons.mp hln with heq | hln
          · obtain ⟨s, hs, hnw2⟩ := ih [line] (Or.inl ⟨line, by simp, heq ▸ hnw⟩)
            exact ⟨s, by simp [hs], hnw2⟩
          · obtain ⟨s, hs, hnw2⟩ := ih [line] (Or.inr ⟨ln, hln, hnw⟩)
            exact ⟨s, by simp [hs], hnw2⟩
      · rcases h with ⟨ln, hln, hnw⟩ | ⟨ln, hln, hnw⟩
        · rename_i hlen
          cases cur with
          | nil => simp at hln
          | cons a b => simp at hlen
        · rcases List.mem_cons.mp hln with heq | hln
          · exact ih [line] (Or.inl ⟨line, by simp, heq ▸ hnw⟩)
          · exact ih [line] (Or.inr ⟨ln, hln, hnw⟩)
    · rcases h with ⟨ln, hln, hnw⟩ | ⟨ln, hln, hnw⟩
      · exact ih (line :: cur) (Or.inl ⟨ln, by simp [hln], hnw⟩)
      · rcases List.mem_cons.mp hln with heq | hln
        · exact ih (line :: cur) (Or.inl ⟨line, by simp, heq ▸ hnw⟩)
        · exact ih (line :: cur) (Or.inr ⟨ln, hln, hnw⟩)

lemma toSections_eq_nil_of_allWs {md : List Char}
    (h : ∀ c ∈ md, isWsChar c = true) : toSections md = [] := by
  apply List.filter_eq_nil_iff.mpr
  intro s hs
  have := sectionsAux_allWs [] (splitLines md) (by simp)
    (splitLinesAux_allWs [] md (by simp) h) s hs
  simp [this]

lemma toSections_nonWs {md : List Char} (h : NonWs md) :
    ∃ s ∈ toSections md, NonWs s := by
  obtain ⟨line, hline, hnw⟩ := splitLinesAux_nonWs [] md (Or.inr h)
  obtain ⟨s, hs, c, hc, hw⟩ := sectionsAux_nonWs [] (splitLines md)
    (Or.inr ⟨line, hline, hnw⟩)
  refine ⟨s, List.mem_filter.mpr ⟨hs, ?_⟩, ⟨c, hc, hw⟩⟩
  simp [List.length_pos]
  exact List.ne_nil_of_mem hc

/-! ### Paragraph and sentence splitting lemmas -/

lemma parFlush_some {cur runRev : List Char} {m : Nat}
    (h : lastNLIdx (runRev.reverse.drop 1) = some m) :
    parFlush cur runRev = ([cur.reverse], (runRev.reverse.drop (m + 2)).reverse) := by
  simp only [parFlush, h]

lemma parFlush_none {cur runRev : List Char}
    (h : lastNLIdx (runRev.reverse.drop 1) = none) :
    parFlush cur runRev = ([], runRev ++ cur) := by
  simp only [parFlush, h]

lemma parFlush_nonWs (cur runRev : List Char) (h : NonWs cur) :
    (∃ p ∈ (parFlush cur runRev).1, NonWs p) ∨ NonWs (parFlush cur runRev).2 := by
  obtain ⟨c, hc, hw⟩ := h
  cases hnl : lastNLIdx (runRev.reverse.drop 1) with
  | some m =>
    rw [parFlush_some hnl]
    exact Or.inl ⟨cur.reverse, by simp, c, by simpa using hc, hw⟩
  | none =>
    rw [parFlush_none hnl]
    exact Or.inr ⟨c, by simp [hc], hw⟩

lemma splitParasAux_nonWs (l : List Char) :
    ∀ (cur runRev : List Char) (inRun : Bool), NonWs cur ∨ NonWs l →
    ∃ p ∈ splitParasAux cur runRev inRun l, NonWs p := by
  induction l with
  | nil =>
    intro cur runRev inRun h
    replace h : NonWs cur := by
      rcases h with h | ⟨c, hc, _⟩
      · exact h
      · simp at hc
    simp only [splitParasAux]
    split
    · rcases parFlush_nonWs cur runRev h with ⟨p, hp, hnw⟩ | hnw
      · exact ⟨p, by simp [hp], hnw⟩
      · exact ⟨(parFlush cur runRev).2.reverse, by simp, by
          obtain ⟨c, hc, hw⟩ := hnw; exact ⟨c, by simpa using hc, hw⟩⟩
    · refine ⟨cur.reverse, by simp, ?_⟩
      obtain ⟨c, hc, hw⟩ := h
      exact ⟨c, by simpa using hc, hw⟩
  | cons c rest ih =>
    intro cur runRev inRun h
    simp only [splitParasAux]
    split
    · split
      · refine ih cur (c :: runRev) true ?_
        rcases h with h | ⟨d, hd, hw⟩
        · exact Or.inl h
        · rcases List.mem_cons.mp hd with rfl | hd
          · rename_i hws; simp [hws] at hw
          · exact Or.inr ⟨d, hd, hw⟩
      · rcases h with h | ⟨d, hd, hw⟩
        · rcases parFlush_nonWs cur runRev h with ⟨p, hp, hnw⟩ | hnw
          · exact ⟨p, by simp [hp], hnw⟩
          · obtain ⟨p, hp, hnw2⟩ := ih (c :: (parFlush cur runRev).2) [] false
              (Or.inl (by obtain ⟨d, hd, hw⟩ := hnw; exact ⟨d, by simp [hd], hw⟩))
            exact ⟨p, by simp [hp], hnw2⟩
        · rcases List.mem_cons.mp hd with rfl | hd
          · obtain ⟨p, hp, hnw2⟩ := ih (d :: (parFlush cur runRev).2) [] false
              (Or.inl ⟨d, by simp, hw⟩)
            exact ⟨p, by simp [hp], hnw2⟩
          · obtain ⟨p, hp, hnw2⟩ := ih (c :: (parFlush cur runRev).2) [] false
              (Or.inr ⟨d, hd, hw⟩)
            exact ⟨p, by simp [hp], hnw2⟩
    · split
      · refine ih cur [c] true ?_
        rcases h with h | ⟨d, hd, hw⟩
        · exact Or.inl h
        · rcases List.mem_cons.mp hd with rfl | hd
          · rename_i hnl; simp [hnl, isWsChar] at hw
          · exact Or.inr ⟨d, hd, hw⟩
      · refine ih (c :: cur) [] false ?_
        rcases h with ⟨d, hd, hw⟩ | ⟨d, hd, hw⟩
        · exact Or.inl ⟨d, by simp [hd], hw⟩
        · rcases List.mem_cons.mp hd with rfl | hd
          · exact Or.inl ⟨d, by simp, hw⟩
          · exact Or.inr ⟨d, hd, hw⟩

lemma toParagraphs_nonWs {sec : List Char} (h : NonWs sec) :
    ∃ p ∈ toParagraphs sec, NonWs p := by
  obtain ⟨p, hp, hnw⟩ := splitParasAux_nonWs sec [] [] false (Or.inr h)
  refine ⟨p, List.mem_filter.mpr ⟨hp, ?_⟩, hnw⟩
  have := trim_ne_nil_iff.mpr hnw
  simpa [List.length_pos] using this

lemma toParagraphs_mem_nonWs {sec p : List Char} (hp : p ∈ toParagraphs sec) :
    NonWs p := by
  have h2 := (List.mem_filter.mp hp).2
  have h3 : trim p ≠ [] := by
    simp only [decide_eq_true_eq, List.length_pos] at h2
    exact h2
  exact trim_ne_nil_iff.mp h3

lemma splitSentAux_cons_skip {pp sk : Bool} {c : Char} {cur rest : List Char}
    (h : (sk && isWsChar c) = true) :
    splitSentAux pp sk cur (c :: rest) = splitSentAux false true cur rest := by
  simp [splitSentAux, h]

lemma splitSentAux_cons_commit {pp sk : Bool} {c : Char} {cur rest : List Char}
    (h1 : (sk && isWsChar c) = false) (h2 : (!sk && pp && isWsChar c) = true) :
    splitSentAux pp sk cur (c :: rest) =
      cur.reverse :: splitSentAux false true [] rest := by
  simp [splitSentAux, h1, h2]

lemma splitSentAux_cons_acc {pp sk : Bool} {c : Char} {cur rest : List Char}
    (h1 : (sk && isWsChar c) = false) (h2 : (!sk && pp && isWsChar c) = false) :
    splitSentAux pp sk cur (c :: rest) =
      splitSentAux (isPunct c) false (c :: cur) rest := by
  simp [splitSentAux, h1, h2]

lemma splitSentAux_nonWs (l : List Char) :
    ∀ (pp sk : Bool) (cur : List Char), NonWs cur ∨ NonWs l →
    ∃ s ∈ splitSentAux pp sk cur l, NonWs s := by
  induction l with
  | nil =>
    intro pp sk cur h
    replace h : NonWs cur := by
      rcases h with h | ⟨c, hc, _⟩
      · exact h
      · simp at hc
    obtain ⟨c, hc, hw⟩ := h
    exact ⟨cur.reverse, by simp [splitSentAux], c, by simpa using hc, hw⟩
  | cons c rest ih =>
    intro pp sk cur h
    by_cases h1 : (sk && isWsChar c) = true
    · rw [splitSentAux_cons_skip h1]
      refine ih false true cur ?_
      rcases h with h | ⟨d, hd, hw⟩
      · exact Or.inl h
      · rcases List.mem_cons.mp hd with rfl | hd
        · simp only [Bool.and_eq_true] at h1
          simp [h1.2] at hw
        · exact Or.inr ⟨d, hd, hw⟩
    · replace h1 : (sk && isWsChar c) = false := by simpa using h1
      by_cases h2 : (!sk && pp && isWsChar c) = true
      · rw [splitSentAux_cons_commit h1 h2]
        rcases h with hcur | ⟨d, hd, hw⟩
        · obtain ⟨e, he, hew⟩ := hcur
          exact ⟨cur.reverse, by simp, e, by simpa using he, hew⟩
        · rcases List.mem_cons.mp hd with rfl | hd
          · simp only [Bool.and_eq_true] at h2
            simp [h2.2] at hw
          · obtain ⟨s, hs, hnw⟩ := ih false true [] (Or.inr ⟨d, hd, hw⟩)
            exact ⟨s, by simp [hs], hnw⟩
      · replace h2 : (!sk && pp && isWsChar c) = false := by simpa using h2
        rw [splitSentAux_cons_acc h1 h2]
        refine ih (isPunct c) false (c :: cur) ?_
        rcases h with ⟨d, hd, hw⟩ | ⟨d, hd, hw⟩
        · exact Or.inl ⟨d, by simp [hd], hw⟩
        · rcases List.mem_cons.mp hd with rfl | hd
          · exact Or.inl ⟨d, by simp, hw⟩
          · exact Or.inr ⟨d, hd, hw⟩

lemma sentFold_nonWs (sentences : List (List Char)) :
    ∀ (out : List (List Char)) (buf : List Char),
    ((∃ s ∈ out, NonWs s) ∨ NonWs buf ∨ (∃ s ∈ sentences, NonWs s)) →
    (∃ s ∈ (sentences.foldl sentStep (out, buf)).1, NonWs s) ∨
      NonWs (sentences.foldl sentStep (out, buf)).2 := by
  induction sentences with
  | nil =>
    intro out buf h
    rcases h with h | h | ⟨s, hs, _⟩
    · exact Or.inl h
    · exact Or.inr h
    · simp at hs
  | cons s rest ih =>
    intro out buf h
    rw [List.foldl_cons]
    by_cases hlen : (trim (buf ++ ' ' :: s)).length ≤ MAX_PARA_LEN
    · rw [show sentStep (out, buf) s =
          (out, (if buf.isEmpty then [] else buf ++ [' ']) ++ trim s) from by
        simp [sentStep, hlen]]
      refine ih _ _ ?_
      rcases h with h | h | ⟨t, ht, hnw⟩
      · exact Or.inl h
      · right; left
        obtain ⟨c, hc, hw⟩ := h
        have hne : buf.isEmpty = false := by
          cases buf with
          | nil => simp at hc
          | cons a b => simp
        exact ⟨c, by simp [hne, hc], hw⟩
      · rcases List.mem_cons.mp ht with rfl | ht
        · right; left
          obtain ⟨c, hc, hw⟩ := nonWs_trim hnw
          exact ⟨c, by simp [hc], hw⟩
        · exact Or.inr (Or.inr ⟨t, ht, hnw⟩)
    · rw [show sentStep (out, buf) s =
          ((if buf.isEmpty then out else out ++ [buf]), trim s) from by
        simp [sentStep, hlen]]
      refine ih _ _ ?_
      rcases h with h | h | ⟨t, ht, hnw⟩
      · left
        obtain ⟨o, ho, hnw⟩ := h
        refine ⟨o, ?_, hnw⟩
        split
        · exact ho
        · simp [ho]
      · left
        have hne : buf.isEmpty = false := by
          obtain ⟨c, hc, _⟩ := h
          cases buf with
          | nil => simp at hc
          | cons a b => simp
        exact ⟨buf, by simp [hne], h⟩
      · rcases List.mem_cons.mp ht with rfl | ht
        · exact Or.inr (Or.inl (nonWs_trim hnw))
        · exact Or.inr (Or.inr ⟨t, ht, hnw⟩)

lemma splitBySentences_nonWs {p : List Char} (h : NonWs p) :
    ∃ o ∈ splitBySentences p, NonWs o := by
  obtain ⟨s, hs, hnw⟩ := splitSentAux_nonWs p false false [] (Or.inr h)
  rcases sentFold_nonWs (splitSentAux false false [] p) [] []
      (Or.inr (Or.inr ⟨s, hs, hnw⟩)) with ⟨o, ho, honw⟩ | honw
  · refine ⟨o, ?_, honw⟩
    by_cases hb : ((splitSentAux false false [] p).foldl sentStep ([], [])).2.isEmpty
    · simpa [splitBySentences, hb] using ho
    · simp only [Bool.not_eq_true] at hb
      simp [splitBySentences, hb, ho]
  · have hne : ((splitSentAux false false [] p).foldl sentStep ([], [])).2.isEmpty = false := by
      obtain ⟨c, hc, _⟩ := honw
      cases hb : ((splitSentAux false false [] p).foldl sentStep ([], [])).2 with
      | nil => rw [hb] at hc; simp at hc
      | cons a b => simp
    refine ⟨_, ?_, honw⟩
    simp [splitBySentences, hne]

/-! ### Pieces and packing lemmas -/

lemma piecesOf_mem_nonWs {md pc : List Char} (h : pc ∈ piecesOf md) :
    NonWs pc := by
  simp only [piecesOf, List.mem_flatten, List.mem_map] at h
  obtain ⟨l1, ⟨sec, hsec, rfl⟩, h1⟩ := h
  simp only [List.mem_flatten, List.mem_map] at h1
  obtain ⟨l2, ⟨p, hp, rfl⟩, h2⟩ := h1
  by_cases hlen : p.length ≤ MAX_PARA_LEN
  · rw [if_pos hlen] at h2
    simp only [List.mem_singleton] at h2
    subst h2
    exact toParagraphs_mem_nonWs hp
  · rw [if_neg hlen] at h2
    obtain ⟨s, _, hs2⟩ := List.mem_filterMap.mp h2
    by_cases hc : decide (0 < (trim s).length) = true
    · rw [if_pos hc] at hs2
      obtain rfl := Option.some_injective _ hs2
      have htr : trim s ≠ [] := by
        simp only [decide_eq_true_eq, List.length_pos] at hc
        exact hc
      exact nonWs_trim (trim_ne_nil_iff.mp htr)
    · rw [if_neg hc] at hs2
      simp at hs2

lemma piecesOf_nonWs {md : List Char} (h : NonWs md) :
    ∃ pc ∈ piecesOf md, NonWs pc := by
  obtain ⟨sec, hsec, hsnw⟩ := toSections_nonWs h
  obtain ⟨p, hp, hpnw⟩ := toParagraphs_nonWs hsnw
  by_cases hlen : p.length ≤ MAX_PARA_LEN
  · refine ⟨p, ?_, hpnw⟩
    simp only [piecesOf, List.mem_flatten, List.mem_map]
    refine ⟨_, ⟨sec, hsec, rfl⟩, ?_⟩
    simp only [List.mem_flatten, List.mem_map]
    exact ⟨_, ⟨p, hp, rfl⟩, by simp [hlen]⟩
  · obtain ⟨o, ho, honw⟩ := splitBySentences_nonWs hpnw
    have htr : trim o ≠ [] := trim_ne_nil_iff.mpr honw
    refine ⟨trim o, ?_, nonWs_trim honw⟩
    simp only [piecesOf, List.mem_flatten, List.mem_map]
    refine ⟨_, ⟨sec, hsec, rfl⟩, ?_⟩
    simp only [List.mem_flatten, List.mem_map]
    refine ⟨_, ⟨p, hp, rfl⟩, ?_⟩
    rw [if_neg hlen]
    exact List.mem_filterMap.mpr ⟨o, ho, by simp [List.length_pos, htr]⟩

lemma piecesOf_eq_nil_of_allWs {md : List Char}
    (h : ∀ c ∈ md, isWsChar c = true) : piecesOf md = [] := by
  simp [piecesOf, toSections_eq_nil_of_allWs h]

lemma packAux_ne_nil {buf : List Char} (h : NonWs buf) :
    ∀ ps, packAux buf ps ≠ [] := by
  intro ps
  induction ps generalizing buf with
  | nil =>
    have : trim buf ≠ [] := trim_ne_nil_iff.mpr h
    simp [packAux, List.length_pos, this]
  | cons p rest ih =>
    have hb : ¬buf.length = 0 := by
      obtain ⟨c, hc, _⟩ := h
      simp [List.length_pos, List.ne_nil_of_mem hc]
    simp only [packAux, if_neg hb]
    split
    · refine ih ?_
      obtain ⟨c, hc, hw⟩ := h
      exact ⟨c, by simp [hc], hw⟩
    · split <;> simp

lemma packAux_mem_nonWs :
    ∀ (ps : List (List Char)) (buf : List Char),
    (∀ pc ∈ ps, NonWs pc) → (buf = [] ∨ NonWs buf) →
    ∀ ch ∈ packAux buf ps, NonWs ch := by
  intro ps
  induction ps with
  | nil =>
    intro buf _ _ ch hch
    simp only [packAux] at hch
    split at hch
    · simp only [List.mem_singleton] at hch
      subst hch
      rename_i hc
      simp only [decide_eq_true_eq, List.length_pos] at hc
      exact trim_ne_nil_iff.mp hc
    · simp at hch
  | cons p rest ih =>
    intro buf hps hb ch hch
    have hpnw : NonWs p := hps p (by simp)
    by_cases h0 : buf.length = 0
    · rw [show packAux buf (p :: rest) = packAux p rest from by simp [packAux, h0]] at hch
      exact ih p (fun pc hpc => hps pc (by simp [hpc])) (Or.inr hpnw) ch hch
    · have hnb : NonWs buf := by
        rcases hb with rfl | hb
        · simp at h0
        · exact hb
      simp only [packAux, if_neg h0] at hch
      split at hch
      · refine ih _ (fun pc hpc => hps pc (by simp [hpc])) (Or.inr ?_) ch hch
        obtain ⟨c, hc, hw⟩ := hnb
        exact ⟨c, by simp [hc], hw⟩
      · split at hch <;>
        · rcases List.mem_cons.mp hch with rfl | hch
          · exact hnb
          · exact ih p (fun pc hpc => hps pc (by simp [hpc])) (Or.inr hpnw) ch hch

lemma packAux_mem_bound :
    ∀ (ps : List (List Char)) (buf ch : List Char), ch ∈ packAux buf ps →
    ch = buf ∨ ch ∈ ps ∨ ch.length ≤ MAX := by
  intro ps
  induction ps with
  | nil =>
    intro buf ch hch
    simp only [packAux] at hch
    split at hch
    · simp only [List.mem_singleton] at hch
      exact Or.inl hch
    · simp at hch
  | cons p rest ih =>
    intro buf ch hch
    by_cases h0 : buf.length = 0
    · rw [show packAux buf (p :: rest) = packAux p rest from by simp [packAux, h0]] at hch
      rcases ih p ch hch with rfl | h | h
      · exact Or.inr (Or.inl (by simp))
      · exact Or.inr (Or.inl (by simp [h]))
      · exact Or.inr (Or.inr h)
    · by_cases hj : (buf ++ '\n' :: '\n' :: p).length ≤ MAX
      · have hj2 : buf.length + (p.length + 1 + 1) ≤ MAX := by simpa using hj
        rw [show packAux buf (p :: rest) = packAux (buf ++ '\n' :: '\n' :: p) rest from by
          simp [packAux, h0, hj2]] at hch
        rcases ih _ ch hch with rfl | h | h
        · exact Or.inr (Or.inr hj)
        · exact Or.inr (Or.inl (by simp [h]))
        · exact Or.inr (Or.inr h)
      · have hj2 : ¬buf.length + (p.length + 1 + 1) ≤ MAX := by simpa using hj
        rw [show packAux buf (p :: rest) = buf :: packAux p rest from by
          simp [packAux, h0, hj2]] at hch
        rcases List.mem_cons.mp hch with rfl | hch
        · exact Or.inl rfl
        · rcases ih p ch hch with rfl | h | h
          · exact Or.inr (Or.inl (by simp))
          · exact Or.inr (Or.inl (by simp [h]))
          · exact Or.inr (Or.inr h)

lemma chunkMarkdown_eq_nil_of_allWs {md : List Char}
    (h : ∀ c ∈ md, isWsChar c = true) : chunkMarkdown md = [] := by
  unfold chunkMarkdown
  rw [piecesOf_eq_nil_of_allWs h]
  decide

lemma chunkMarkdown_ne_nil_of_nonWs {md : List Char} (h : NonWs md) :
    chunkMarkdown md ≠ [] := by
  obtain ⟨pc, hpc, _⟩ := piecesOf_nonWs h
  cases hps : piecesOf md with
  | nil => rw [hps] at hpc; simp at hpc
  | cons p rest =>
    have hnp : NonWs p := piecesOf_mem_nonWs
      (show p ∈ piecesOf md by rw [hps]; simp)
    unfold chunkMarkdown
    rw [hps, show packAux [] (p :: rest) = packAux p rest from by simp [packAux]]
    exact packAux_ne_nil hnp rest

/-! ### Evaluation on plain (whitespace- and marker-free) text -/

lemma dropWhile_noWs {l : List Char} (h : ∀ c ∈ l, isWsChar c = false) :
    l.dropWhile isWsChar = l := by
  cases l with
  | nil => rfl
  | cons c rest => rw [List.dropWhile_cons, if_neg]; simp [h c (by simp)]

lemma trim_noWs {l : List Char} (h : ∀ c ∈ l, isWsChar c = false) :
    trim l = l := by
  unfold trim
  rw [dropWhile_noWs h, dropWhile_noWs (fun c hc => h c (List.mem_reverse.mp hc)),
    List.reverse_reverse]

lemma splitLinesAux_plain (cur l : List Char)
    (h : ∀ c ∈ l, c ≠ '\n' ∧ c ≠ '\r') :
    splitLinesAux cur l = [cur.reverse ++ l] := by
  induction cur, l using splitLinesAux.induct with
  | case1 cur => simp [splitLinesAux]
  | case2 cur rest ih => exact absurd (h '\r' (by simp)).2 (by simp)
  | case3 cur rest ih => exact absurd (h '\n' (by simp)).1 (by simp)
  | case4 cur c rest h1 h2 ih =>
    have hstep : splitLinesAux cur (c :: rest) = splitLinesAux (c :: cur) rest := by
      simp [splitLinesAux]
    rw [hstep, ih (fun d hd => h d (by simp [hd]))]
    simp

lemma sectionsAux_single (l : List Char) : sectionsAux [] [l] = [trim l] := by
  by_cases hh : isHeading l <;> simp [sectionsAux, hh, joinNL]

lemma splitParasAux_plain (l : List Char) (h : ∀ c ∈ l, c ≠ '\n') :
    ∀ cur, splitParasAux cur [] false l = [cur.reverse ++ l] := by
  induction l with
  | nil => intro cur; simp [splitParasAux]
  | cons c rest ih =>
    intro cur
    have hc : ¬(c = '\n') := h c (by simp)
    simp only [splitParasAux, if_neg hc, Bool.false_eq_true, if_false]
    rw [ih (fun d hd => h d (by simp [hd]))]
    simp

lemma splitSentAux_plain (l : List Char) (h : ∀ c ∈ l, isWsChar c = false) :
    ∀ (pp : Bool) (cur : List Char),
    splitSentAux pp false cur l = [cur.reverse ++ l] := by
  induction l with
  | nil => intro pp cur; simp [splitSentAux]
  | cons c rest ih =>
    intro pp cur
    have hws := h c (by simp)
    rw [splitSentAux_cons_acc (by simp) (by simp [hws])]
    rw [ih (fun d hd => h d (by simp [hd]))]
    simp

lemma chunkMarkdown_replicate :
    chunkMarkdown (List.replicate 7501 'a') = [List.replicate 7501 'a'] := by
  set l := List.replicate 7501 'a' with hl
  have hmem : ∀ c ∈ l, c = 'a' := fun c hc => List.eq_of_mem_replicate hc
  have hnws : ∀ c ∈ l, isWsChar c = false := fun c hc => by
    rw [hmem c hc]; decide
  have hnl : ∀ c ∈ l, c ≠ '\n' ∧ c ≠ '\r' := fun c hc => by
    rw [hmem c hc]; decide
  have hlen : l.length = 7501 := by rw [hl, List.length_replicate]
  have htr : trim l = l := trim_noWs hnws
  have hlpos : decide (0 < l.length) = true := by simp [hlen]
  have htrpos : decide (0 < (trim l).length) = true := by rw [htr]; exact hlpos
  have h2 : toSections l = [l] := by
    unfold toSections splitLines
    rw [splitLinesAux_plain [] l hnl]
    simp only [List.reverse_nil, List.nil_append]
    rw [sectionsAux_single, htr]
    simp [hlpos]
  have h3 : toParagraphs l = [l] := by
    unfold toParagraphs
    rw [splitParasAux_plain l (fun c hc => (hnl c hc).1) []]
    simp [htrpos]
  have htrsp : trim (' ' :: l) = l := by
    have hdw : (' ' :: l).dropWhile isWsChar = l.dropWhile isWsChar := by
      rw [List.dropWhile_cons, if_pos (by decide : isWsChar ' ' = true)]
    unfold trim
    unfold trim at htr
    rw [hdw]
    exact htr
  have hfold : List.foldl sentStep ([], []) [l] = ([], l) := by
    rw [List.foldl_cons, List.foldl_nil]
    have hcond : ¬(trim (([] : List Char) ++ ' ' :: l)).length ≤ MAX_PARA_LEN := by
      rw [List.nil_append, htrsp, hlen]
      decide
    simp [sentStep, hcond, htr]
  have hlne : l.isEmpty = false := by rw [hl]; simp
  have h4 : splitBySentences l = [l] := by
    unfold splitBySentences
    rw [splitSentAux_plain l hnws false []]
    simp only [List.reverse_nil, List.nil_append]
    rw [hfold]
    simp [hlne]
  have hlong : ¬l.length ≤ MAX_PARA_LEN := by rw [hlen]; decide
  have h5 : piecesOf l = [l] := by
    unfold piecesOf
    rw [h2]
    simp only [List.map_cons, List.map_nil, List.flatten_cons, List.flatten_nil,
      List.append_nil]
    rw [h3]
    simp only [List.map_cons, List.map_nil, List.flatten_cons, List.flatten_nil,
      List.append_nil, if_neg hlong]
    rw [h4]
    have hfa : (if decide (0 < (trim l).length) then some (trim l) else none) = some l := by
      rw [if_pos htrpos, htr]
    simp only [List.filterMap_cons, List.filterMap_nil, hfa]
  unfold chunkMarkdown
  rw [h5, show packAux [] [l] = packAux l [] from by simp [packAux]]
  simp [packAux, htrpos]

/-! ### Claim C7 -/

/-- C7: `chunkMarkdown` returns the empty list exactly for empty or
whitespace-only input, and every returned chunk is non-empty and not
whitespace-only. -/
theorem chunkMarkdown_empty_iff_and_chunks_nonblank (md : List Char) :
    (chunkMarkdown md = [] ↔ ∀ c ∈ md, isWsChar c = true) ∧
    (∀ ch ∈ chunkMarkdown md, ch ≠ [] ∧ ¬(∀ c ∈ ch, isWsChar c = true)) := by
  constructor
  · constructor
    · intro he
      by_contra hnall
      exact chunkMarkdown_ne_nil_of_nonWs (not_allWs_iff.mp hnall) he
    · exact chunkMarkdown_eq_nil_of_allWs
  · intro ch hch
    have hch' : ch ∈ packAux [] (piecesOf md) := hch
    have hnw : NonWs ch := packAux_mem_nonWs (piecesOf md) []
      (fun pc hpc => piecesOf_mem_nonWs hpc) (Or.inl rfl) ch hch'
    obtain ⟨c, hc, hw⟩ := hnw
    exact ⟨List.ne_nil_of_mem hc, not_allWs_iff.mpr ⟨c, hc, hw⟩⟩

/-- Witness for C7 at the concrete input `"x"`. -/
theorem chunkMarkdown_empty_iff_and_chunks_nonblank_witness :
    (['x'] : List Char) ≠ [] ∧ ¬(∀ c ∈ (['x'] : List Char), isWsChar c = true) :=
  (chunkMarkdown_empty_iff_and_chunks_nonblank ['x']).2 ['x'] (by decide)

/-! ### Claim C10 -/

/-- C10: every chunk produced by the packing loop is either a single
(indivisible) piece or has length at most `MAX` (7500); and `MAX` is not a
hard upper bound on chunk length: a 7501-character sentence with no internal
sentence boundary comes through as one oversized chunk. -/
theorem packing_soft_bound (ps : List (List Char)) (ch : List Char)
    (hch : ch ∈ packAux [] ps) :
    MAX = 7500 ∧ (ch ∈ ps ∨ ch.length ≤ MAX) ∧
    (∃ md, ∃ big ∈ chunkMarkdown md, MAX < big.length) := by
  refine ⟨rfl, ?_, ?_⟩
  · rcases packAux_mem_bound ps [] ch hch with rfl | h | h
    · right; simp
    · left; exact h
    · right; exact h
  · refine ⟨List.replicate 7501 'a', List.replicate 7501 'a', ?_, ?_⟩
    · rw [chunkMarkdown_replicate]; exact List.mem_singleton.mpr rfl
    · rw [List.length_replicate]; decide

/-- Witness for C10 at the concrete piece list `[['x']]`. -/
theorem packing_soft_bound_witness :
    MAX = 7500 ∧ ((['x'] : List Char) ∈ [(['x'] : List Char)] ∨ (['x'] : List Char).length ≤ MAX) ∧
    (∃ md, ∃ big ∈ chunkMarkdown md, MAX < big.length) :=
  packing_soft_bound [['x']] ['x'] (by decide)

example : chunkMarkdown [] = [] := by decide

lemma effBatchSize_pos (o : Option Nat) : 0 < effBatchSize o := by
  cases o with
  | none => decide
  | some n => cases n <;> simp [effBatchSize]

example : chunkMarkdown [' ', '\n', '\t'] = [] := by decide

example : chunkMarkdown ['h', 'i'] = [['h', 'i']] := by decide

example : chunkMarkdown ['a', '\n', '\n', 'b'] = [['a', '\n', '\n', 'b']] := by decide

example : chunkMarkdown ['#', ' ', 'T', '\n', 'b'] = [['#', ' ', 'T', '\n', 'b']] := by decide

/-! ### Claim C1 -/

lemma outcome_count (outs : List Outcome) :
    outs.length = (outs.filterMap newlyOf).length +
      (outs.filterMap skippedOf).length + (outs.filterMap failedOf).length +
      (outs.filter Outcome.isSilent).length := by
  induction outs with
  | nil => simp
  | cons o rest ih =>
    cases o <;>
      simp [newlyOf, skippedOf, failedOf, Outcome.isSilent, List.filterMap_cons,
        List.filter_cons, ih] <;> omega

/-- C1 (amended): a pass always yields exactly one outcome per scanned file
and one document's failure never aborts it; a thrown conversion error or a
batch failure is folded into `failed`; but a document whose conversion
produces zero chunks is routed into none of the three lists, so
`scanned_count` equals the sum of the three list sizes plus the number of
zero-chunk documents. -/
theorem runScan_complete_result (bs : Nat) (cid : String) (envs : List FileEnv) :
    (runScan bs cid envs).scanned_count =
      (runScan bs cid envs).newly_indexed.length +
      (runScan bs cid envs).skipped_existing.length +
      (runScan bs cid envs).failed.length +
      ((outcomesOf bs envs).filter Outcome.isSilent).length ∧
    (runScan bs cid envs).newly_indexed_count =
      (runScan bs cid envs).newly_indexed.length ∧
    (outcomesOf bs envs).length = envs.length ∧
    (∀ env : FileEnv, ∀ e, env.insertRes = .ok true → env.convert = .error e →
      (processFile bs env).1 = .failedOut env.filename (msgOr e "Unknown error")) ∧
    (∀ env : FileEnv, ∀ md bf, env.insertRes = .ok true → env.convert = .ok md →
      ¬(chunkMarkdown md).length = 0 →
      (runBatches env bs 0 (d1Of env) (chunkMarkdown md)).2.1 = some bf →
      (processFile bs env).1 = .failedOut env.filename (msgOr bf.msg "Unknown error")) ∧
    (∀ env : FileEnv, ∀ md, env.insertRes = .ok true → env.convert = .ok md →
      (chunkMarkdown md).length = 0 → (processFile bs env).1 = .silent) := by
  refine ⟨?_, rfl, by simp [outcomesOf], ?_, ?_, ?_⟩
  · have := outcome_count (outcomesOf bs envs)
    simpa [runScan, outcomesOf] using this
  · intro env e hres hconv
    simp [processFile, hres, hconv]
  · intro env md bf hres hconv hne hfail
    have hne2 : ¬(chunkMarkdown md = []) := by
      simpa [List.length_eq_zero] using hne
    simp [processFile, hres, hconv, hne2, hfail]
  · intro env md hres hconv hz
    have hz2 : chunkMarkdown md = [] := by
      simpa [List.length_eq_zero] using hz
    simp [processFile, hres, hconv, hz2]

/-- Counterexample to C1 as stated: with one scanned file whose conversion
yields zero chunks, the pass result routes the file into none of
`newly_indexed` / `skipped_existing` / `failed`, so `scanned_count` (1) is
not the sum of the three list sizes (0). -/
theorem runScan_complete_result_counterexample :
    ¬((runScan 32 "cid" [envZeroChunks]).scanned_count =
      (runScan 32 "cid" [envZeroChunks]).newly_indexed.length +
      (runScan 32 "cid" [envZeroChunks]).skipped_existing.length +
      (runScan 32 "cid" [envZeroChunks]).failed.length) := by
  decide

/-- Witness for C1's amended theorem: its conversion-error conjunct applied
at a concrete environment. -/
theorem runScan_complete_result_witness :
    (processFile 32 { envZeroChunks with convert := .error (some "boom") }).1 =
      .failedOut "f.pdf" "boom" :=
  (runScan_complete_result 32 "cid" []).2.2.2.1
    { envZeroChunks with convert := .error (some "boom") } (some "boom") rfl rfl

/-! ### Batch-loop lemmas -/

lemma runBatches_preserve (env : FileEnv) (bs : Nat) :
    ∀ (idx : Nat) (d : DocState) (chunks : List (List Char)),
    (runBatches env bs idx d chunks).1.rowExists = d.rowExists ∧
    (runBatches env bs idx d chunks).1.chunksCount = d.chunksCount ∧
    (runBatches env bs idx d chunks).1.lastIndexedAt = d.lastIndexedAt := by
  intro idx d chunks
  induction idx, d, chunks using runBatches.induct env bs with
  | case1 idx d => simp [runBatches]
  | case2 idx d c0 rest h0 => simp [runBatches, h0]
  | case3 idx d c0 rest h0 e he =>
    simp only [runBatches, dif_neg h0, he, applyWrite]
    split <;> simp
  | case4 idx d c0 rest h0 u he e hte =>
    simp only [runBatches, dif_neg h0, he, hte, applyWrite]
    split <;> simp
  | case5 idx d c0 rest h0 u he v hte ih =>
    simp only [runBatches, dif_neg h0, he, hte]
    simpa using ih

lemma runBatches_embedFail {env : FileEnv} {bs : Nat}
    (hw : env.wFailedEmbed = true) :
    ∀ (idx : Nat) (d : DocState) (chunks : List (List Char)) (e : Option String),
    (runBatches env bs idx d chunks).2.1 = some (.embed e) →
    (runBatches env bs idx d chunks).1.status = some "failed_embed" ∧
    (runBatches env bs idx d chunks).1.errorText = some (msgOr e "Embedding failed") := by
  intro idx d chunks
  induction idx, d, chunks using runBatches.induct env bs with
  | case1 idx d => simp [runBatches]
  | case2 idx d c0 rest h0 => simp [runBatches, h0]
  | case3 idx d c0 rest h0 e he =>
    intro e2 hfb
    simp only [runBatches, dif_neg h0, he] at hfb ⊢
    have he2 : e = e2 := by simpa using hfb
    subst he2
    simp [applyWrite, hw]
  | case4 idx d c0 rest h0 u he e hte =>
    intro e2 hfb
    simp only [runBatches, dif_neg h0, he, hte] at hfb
    simp at hfb
  | case5 idx d c0 rest h0 u he v hte ih =>
    intro e2 hfb
    simp only [runBatches, dif_neg h0, he, hte] at hfb ⊢
    exact ih e2 hfb

lemma runBatches_txFail {env : FileEnv} {bs : Nat}
    (hw : env.wFailedInsert = true) :
    ∀ (idx : Nat) (d : DocState) (chunks : List (List Char)) (e : Option String),
    (runBatches env bs idx d chunks).2.1 = some (.tx e) →
    (runBatches env bs idx d chunks).1.status = some "failed_insert" ∧
    (runBatches env bs idx d chunks).1.errorText = some (msgOr e "Batch insert failed") := by
  intro idx d chunks
  induction idx, d, chunks using runBatches.induct env bs with
  | case1 idx d => simp [runBatches]
  | case2 idx d c0 rest h0 => simp [runBatches, h0]
  | case3 idx d c0 rest h0 e he =>
    intro e2 hfb
    simp only [runBatches, dif_neg h0, he] at hfb
    simp at hfb
  | case4 idx d c0 rest h0 u he e hte =>
    intro e2 hfb
    simp only [runBatches, dif_neg h0, he, hte] at hfb ⊢
    obtain rfl : e = e2 := by simpa using hfb
    simp [applyWrite, hw]
  | case5 idx d c0 rest h0 u he v hte ih =>
    intro e2 hfb
    simp only [runBatches, dif_neg h0, he, hte] at hfb ⊢
    exact ih e2 hfb

lemma runBatches_status_cases (env : FileEnv) (bs : Nat) :
    ∀ (idx : Nat) (d : DocState) (chunks : List (List Char)),
    (runBatches env bs idx d chunks).1.status = d.status ∨
    (runBatches env bs idx d chunks).1.status = some "failed_embed" ∨
    (runBatches env bs idx d chunks).1.status = some "failed_insert" := by
  intro idx d chunks
  induction idx, d, chunks using runBatches.induct env bs with
  | case1 idx d => simp [runBatches]
  | case2 idx d c0 rest h0 => simp [runBatches, h0]
  | case3 idx d c0 rest h0 e he =>
    simp only [runBatches, dif_neg h0, he, applyWrite]
    split <;> simp
  | case4 idx d c0 rest h0 u he e hte =>
    simp only [runBatches, dif_neg h0, he, hte, applyWrite]
    split <;> simp
  | case5 idx d c0 rest h0 u he v hte ih =>
    simp only [runBatches, dif_neg h0, he, hte]
    simpa using ih

lemma runBatches_none {env : FileEnv} {bs : Nat} (hbs : 0 < bs) :
    ∀ (idx : Nat) (d : DocState) (chunks : List (List Char)),
    (runBatches env bs idx d chunks).2.1 = none →
    (runBatches env bs idx d chunks).1 =
      { d with committedChunks := d.committedChunks + chunks.length } := by
  intro idx d chunks
  induction idx, d, chunks using runBatches.induct env bs with
  | case1 idx d => intro _; cases d; simp [runBatches]
  | case2 idx d c0 rest h0 => omega
  | case3 idx d c0 rest h0 e he =>
    intro hnone
    simp [runBatches, dif_neg h0, he] at hnone
  | case4 idx d c0 rest h0 u he e hte =>
    intro hnone
    simp [runBatches, dif_neg h0, he, hte] at hnone
  | case5 idx d c0 rest h0 u he v hte ih =>
    intro hnone
    simp only [runBatches, dif_neg h0, he, hte] at hnone ⊢
    rw [ih (by simpa using hnone)]
    cases d
    simp [List.length_take, List.length_drop]
    omega

lemma runBatches_failAt {env : FileEnv} {bs : Nat} (hbs : 0 < bs) :
    ∀ (k idx : Nat) (d : DocState) (chunks : List (List Char)),
    (∀ j, j < k → env.embedRes (idx + j) = .ok () ∧ env.txRes (idx + j) = .ok ()) →
    ((∃ e, env.embedRes (idx + k) = .error e) ∨
      (env.embedRes (idx + k) = .ok () ∧ ∃ e, env.txRes (idx + k) = .error e)) →
    bs * k < chunks.length →
    (runBatches env bs idx d chunks).1.committedChunks =
      d.committedChunks + bs * k ∧
    (runBatches env bs idx d chunks).2.1.isSome = true := by
  intro k
  induction k with
  | zero =>
    intro idx d chunks hok hfail hlt
    cases chunks with
    | nil => simp at hlt
    | cons c0 rest =>
      have h0 : ¬bs = 0 := by omega
      rcases hfail with ⟨e, he⟩ | ⟨he, e, hte⟩
      · rw [Nat.add_zero] at he
        simp only [runBatches, dif_neg h0, he, applyWrite]
        constructor
        · split <;> simp
        · simp
      · rw [Nat.add_zero] at he hte
        simp only [runBatches, dif_neg h0, he, hte, applyWrite]
        constructor
        · split <;> simp
        · simp
  | succ k ih =>
    intro idx d chunks hok hfail hlt
    cases chunks with
    | nil => simp at hlt
    | cons c0 rest =>
      have h0 : ¬bs = 0 := by omega
      have hok0 := hok 0 (by omega)
      rw [Nat.add_zero] at hok0
      have hbslen : bs ≤ rest.length + 1 := by
        have : bs * 1 ≤ bs * (k + 1) := Nat.mul_le_mul_left bs (by omega)
        simp only [List.length_cons] at hlt
        omega
      have hok2 : ∀ j, j < k →
          env.embedRes (idx + 1 + j) = .ok () ∧ env.txRes (idx + 1 + j) = .ok () := by
        intro j hj
        have := hok (j + 1) (by omega)
        rwa [show idx + (j + 1) = idx + 1 + j from by omega] at this
      have hfail2 : (∃ e, env.embedRes (idx + 1 + k) = .error e) ∨
          (env.embedRes (idx + 1 + k) = .ok () ∧
            ∃ e, env.txRes (idx + 1 + k) = .error e) := by
        rwa [show idx + (k + 1) = idx + 1 + k from by omega] at hfail
      have hlt2 : bs * k < ((c0 :: rest).drop bs).length := by
        simp only [List.length_drop, List.length_cons] at hlt ⊢
        have : bs * (k + 1) = bs * k + bs := by ring
        omega
      have hres := ih (idx + 1)
        { d with committedChunks := d.committedChunks + ((c0 :: rest).take bs).length }
        ((c0 :: rest).drop bs) hok2 hfail2 hlt2
      simp only [runBatches, dif_neg h0, hok0.1, hok0.2]
      refine ⟨?_, hres.2⟩
      rw [hres.1]
      simp only [List.length_take, List.length_cons]
      have hmin : min bs (rest.length + 1) = bs := Nat.min_eq_left hbslen
      rw [hmin]
      have : bs * (k + 1) = bs + bs * k := by ring
      omega

/-- C2: with the status writes succeeding, the persisted row follows the
status state machine: conversion error or zero chunks → `failed_parse`, an
embedding batch failure → `failed_embed`, a storage-transaction failure →
`failed_insert`, and only when all batches commit → `indexed` with
`chunks_count` and `last_indexed_at` updated; every failing transition
records `error_text`. -/
theorem runScan_status_state_machine (bs : Nat) (env : FileEnv)
    (hbs : 0 < bs) (hw : allWritesOk env) (hres : env.insertRes = .ok true) :
    (∀ e, env.convert = .error e →
      ((processFile bs env).2.1).status = some "failed_parse" ∧
      ∃ s, ((processFile bs env).2.1).errorText = some s) ∧
    (∀ md, env.convert = .ok md → (chunkMarkdown md).length = 0 →
      ((processFile bs env).2.1).status = some "failed_parse" ∧
      ((processFile bs env).2.1).errorText = some "No chunks produced") ∧
    (∀ md e, env.convert = .ok md → ¬(chunkMarkdown md).length = 0 →
      (runBatches env bs 0 (d1Of env) (chunkMarkdown md)).2.1 = some (.embed e) →
      ((processFile bs env).2.1).status = some "failed_embed" ∧
      ∃ s, ((processFile bs env).2.1).errorText = some s) ∧
    (∀ md e, env.convert = .ok md → ¬(chunkMarkdown md).length = 0 →
      (runBatches env bs 0 (d1Of env) (chunkMarkdown md)).2.1 = some (.tx e) →
      ((processFile bs env).2.1).status = some "failed_insert" ∧
      ∃ s, ((processFile bs env).2.1).errorText = some s) ∧
    (∀ md, env.convert = .ok md → ¬(chunkMarkdown md).length = 0 →
      (runBatches env bs 0 (d1Of env) (chunkMarkdown md)).2.1 = none →
      ((processFile bs env).2.1).status = some "indexed" ∧
      ((processFile bs env).2.1).errorText = none ∧
      ((processFile bs env).2.1).chunksCount = some (chunkMarkdown md).length ∧
      ((processFile bs env).2.1).lastIndexedAt = true) ∧
    (((processFile bs env).2.1).status = some "indexed" →
      ∀ md, env.convert = .ok md →
      (runBatches env bs 0 (d1Of env) (chunkMarkdown md)).2.1 = none) := by
  obtain ⟨hw1, hw2, hw3, hw4, hw5, hw6, hw7, hw8⟩ := hw
  refine ⟨?_, ?_, ?_, ?_, ?_, ?_⟩
  · intro e hconv
    simp [processFile, hres, hconv, applyWrite, hw2, hw8]
  · intro md hconv hz
    have hz2 : chunkMarkdown md = [] := by simpa [List.length_eq_zero] using hz
    simp [processFile, hres, hconv, hz2, applyWrite, hw3]
  · intro md e hconv hne hfail
    have hne2 : ¬(chunkMarkdown md = []) := by
      simpa [List.length_eq_zero] using hne
    obtain ⟨hst, het⟩ := runBatches_embedFail hw4 0 (d1Of env) (chunkMarkdown md) e hfail
    simp only [processFile, hres, hconv, hfail]
    simp [applyWrite, hw8, hst, hne2]
  · intro md e hconv hne hfail
    have hne2 : ¬(chunkMarkdown md = []) := by
      simpa [List.length_eq_zero] using hne
    obtain ⟨hst, het⟩ := runBatches_txFail hw5 0 (d1Of env) (chunkMarkdown md) e hfail
    simp only [processFile, hres, hconv, hfail]
    simp [applyWrite, hw8, hst, hne2]
  · intro md hconv hne hnone
    have hne2 : ¬(chunkMarkdown md = []) := by
      simpa [List.length_eq_zero] using hne
    have hfull := runBatches_none hbs 0 (d1Of env) (chunkMarkdown md) hnone
    simp only [processFile, hres, hconv, hnone]
    simp [applyWrite, hw6, hw7, hfull, hne2]
  · intro hst md hconv
    by_cases hz : chunkMarkdown md = []
    · rw [hz]
      simp [runBatches]
    · have hne2 : ¬(chunkMarkdown md = []) := hz
      cases hrb : (runBatches env bs 0 (d1Of env) (chunkMarkdown md)).2.1 with
      | none => rfl
      | some bf =>
        exfalso
        simp only [processFile, hres, hconv, hrb] at hst
        simp [applyWrite, hw8, hne2] at hst
        cases bf with
        | embed e =>
          have := (runBatches_embedFail hw4 0 (d1Of env) (chunkMarkdown md) e hrb).1
          rw [this] at hst
          simp at hst
        | tx e =>
          have := (runBatches_txFail hw5 0 (d1Of env) (chunkMarkdown md) e hrb).1
          rw [this] at hst
          simp at hst

/-- Witness for C2: the conversion-error transition at a concrete
environment. -/
theorem runScan_status_state_machine_witness :
    ((processFile 32 envConvFail).2.1).status = some "failed_parse" ∧
    ∃ s, ((processFile 32 envConvFail).2.1).errorText = some s :=
  (runScan_status_state_machine 32 envConvFail (by decide)
    ⟨rfl, rfl, rfl, rfl, rfl, rfl, rfl, rfl⟩ rfl).1 (some "bad pdf") rfl

/-! ### Claim C3 -/

lemma d1Of_rowExists (env : FileEnv) : (d1Of env).rowExists = true := by
  cases h : env.wScanned <;> simp [d1Of, applyWrite, DocState.created, h]

lemma d1Of_chunksCount (env : FileEnv) : (d1Of env).chunksCount = none := by
  cases h : env.wScanned <;> simp [d1Of, applyWrite, DocState.created, h]

lemma d1Of_committed (env : FileEnv) : (d1Of env).committedChunks = 0 := by
  cases h : env.wScanned <;> simp [d1Of, applyWrite, DocState.created, h]

lemma d1Of_not_indexed (env : FileEnv) :
    ¬(d1Of env).status = some "indexed" := by
  cases h : env.wScanned <;> simp [d1Of, applyWrite, DocState.created, h]

/-- C3: for a document that reserved its row, the pipeline never deletes the
row, a failing or silent document is never marked `indexed`, `chunks_count`
(when set) equals the number of committed chunk rows, and when batch `k` is
the first to fail (embedding or transaction) the `bs * k` chunks of the
earlier committed batches are retained. -/
theorem runScan_failure_row_invariants (bs : Nat) (env : FileEnv)
    (hbs : 0 < bs) (hres : env.insertRes = .ok true) :
    ((processFile bs env).2.1).rowExists = true ∧
    (∀ f er, (processFile bs env).1 = .failedOut f er →
      ((processFile bs env).2.1).status ≠ some "indexed") ∧
    ((processFile bs env).1 = .silent →
      ((processFile bs env).2.1).status ≠ some "indexed") ∧
    (∀ n, ((processFile bs env).2.1).chunksCount = some n →
      n = ((processFile bs env).2.1).committedChunks) ∧
    (∀ md k, env.convert = .ok md →
      (∀ j, j < k → env.embedRes j = .ok () ∧ env.txRes j = .ok ()) →
      ((∃ e, env.embedRes k = .error e) ∨
        (env.embedRes k = .ok () ∧ ∃ e, env.txRes k = .error e)) →
      bs * k < (chunkMarkdown md).length →
      ((processFile bs env).2.1).committedChunks = bs * k ∧
      ∃ f er, (processFile bs env).1 = .failedOut f er) := by
  cases hconv : env.convert with
  | error e =>
    refine ⟨?_, ?_, ?_, ?_, ?_⟩
    · cases h1 : env.wOuterErr <;> cases h2 : env.wFailedParseConv <;>
        simp [processFile, hres, hconv, applyWrite, h1, h2, d1Of_rowExists]
    · intro f er _
      cases h1 : env.wOuterErr <;> cases h2 : env.wFailedParseConv <;>
        simp [processFile, hres, hconv, applyWrite, h1, h2, d1Of_not_indexed env]
    · intro habs
      simp [processFile, hres, hconv] at habs
    · intro n hcc
      cases h1 : env.wOuterErr <;> cases h2 : env.wFailedParseConv <;>
        simp [processFile, hres, hconv, applyWrite, h1, h2,
          d1Of_chunksCount env] at hcc
    · intro md k hconv2
      simp at hconv2
  | ok md0 =>
    by_cases hz : chunkMarkdown md0 = []
    · refine ⟨?_, ?_, ?_, ?_, ?_⟩
      · cases h1 : env.wFailedParseEmpty <;>
          simp [processFile, hres, hconv, hz, applyWrite, h1, d1Of_rowExists]
      · intro f er habs
        simp [processFile, hres, hconv, hz] at habs
      · intro _
        cases h1 : env.wFailedParseEmpty <;>
          simp [processFile, hres, hconv, hz, applyWrite, h1, d1Of_not_indexed env]
      · intro n hcc
        cases h1 : env.wFailedParseEmpty <;>
          simp [processFile, hres, hconv, hz, applyWrite, h1,
            d1Of_chunksCount env] at hcc
      · intro md k hconv2 hok hfail hlt
        injection hconv2 with hmd2
        subst hmd2
        rw [hz] at hlt
        simp at hlt
    · cases hrb : (runBatches env bs 0 (d1Of env) (chunkMarkdown md0)).2.1 with
      | some bf =>
        have hpres := runBatches_preserve env bs 0 (d1Of env) (chunkMarkdown md0)
        have hstc := runBatches_status_cases env bs 0 (d1Of env) (chunkMarkdown md0)
        refine ⟨?_, ?_, ?_, ?_, ?_⟩
        · cases h1 : env.wOuterErr <;>
            simp [processFile, hres, hconv, hz, hrb, applyWrite, h1,
              hpres.1, d1Of_rowExists]
        · intro f er _
          cases h1 : env.wOuterErr <;>
            simp [processFile, hres, hconv, hz, hrb, applyWrite, h1] <;>
            · rcases hstc with h | h | h <;> rw [h] <;> simp [d1Of_not_indexed env]
        · intro habs
          simp [processFile, hres, hconv, hz, hrb] at habs
        · intro n hcc
          cases h1 : env.wOuterErr <;>
            simp [processFile, hres, hconv, hz, hrb, applyWrite, h1,
              hpres.2.1, d1Of_chunksCount env] at hcc
        · intro md k hconv2 hok hfail hlt
          injection hconv2 with hmd2
          subst hmd2
          have hfa := runBatches_failAt hbs k 0 (d1Of env) (chunkMarkdown md0)
            (by simpa using hok) (by simpa using hfail) hlt
          constructor
          · cases h1 : env.wOuterErr <;>
              simp [processFile, hres, hconv, hz, hrb, applyWrite, h1, hfa.1,
                d1Of_committed]
          · simp [processFile, hres, hconv, hz, hrb]
      | none =>
        have hfull := runBatches_none hbs 0 (d1Of env) (chunkMarkdown md0) hrb
        refine ⟨?_, ?_, ?_, ?_, ?_⟩
        · cases h1 : env.wIndexed <;> cases h2 : env.wChunksCount <;>
            simp [processFile, hres, hconv, hz, hrb, applyWrite, h1, h2, hfull,
              d1Of_rowExists]
        · intro f er habs
          simp [processFile, hres, hconv, hz, hrb] at habs
        · intro habs
          simp [processFile, hres, hconv, hz, hrb] at habs
        · intro n hcc
          cases h1 : env.wIndexed <;> cases h2 : env.wChunksCount <;>
            simp [processFile, hres, hconv, hz, hrb, applyWrite, h1, h2, hfull,
              d1Of_chunksCount env, d1Of_committed] at hcc ⊢ <;>
            omega
        · intro md k hconv2 hok hfail hlt
          injection hconv2 with hmd2
          subst hmd2
          have hfa := runBatches_failAt hbs k 0 (d1Of env) (chunkMarkdown md0)
            (by simpa using hok) (by simpa using hfail) hlt
          rw [hrb] at hfa
          simp at hfa

/-- Witness for C3: the batch-retention conjunct at a concrete environment
whose first embedding batch fails. -/
theorem runScan_failure_row_invariants_witness :
    ((processFile 32 envEmbedFail).2.1).committedChunks = 32 * 0 ∧
    ∃ f er, (processFile 32 envEmbedFail).1 = .failedOut f er :=
  (runScan_failure_row_invariants 32 envEmbedFail (by decide) rfl).2.2.2.2
    ['x'] 0 rfl (fun j hj => absurd hj (by omega))
    (Or.inl ⟨some "dim mismatch", rfl⟩) (by decide)

lemma reserveInsert_mem_filename {db : List BookRow} {b : BookRow} :
    ((reserveInsert db b).1.any (fun r => r.filename = b.filename)) = true := by
  unfold reserveInsert
  split
  · rename_i h
    simpa using h
  · simp

lemma runReservations_all_conflict {fn : String} :
    ∀ (attempts : List BookRow) (db : List BookRow),
    (∀ b ∈ attempts, b.filename = fn) →
    (db.any (fun r => r.filename = fn)) = true →
    runReservations db attempts = (db, List.replicate attempts.length false) := by
  intro attempts
  induction attempts with
  | nil => intro db _ _; simp [runReservations]
  | cons b rest ih =>
    intro db hfn hdb
    have hb : b.filename = fn := hfn b (by simp)
    have hconf : (db.any (fun r => r.filename = b.filename)) = true := by
      rw [hb]; exact hdb
    simp only [runReservations, reserveInsert, hconf, if_pos]
    rw [ih db (fun c hc => hfn c (by simp [hc])) hdb]
    simp [List.replicate]

/-- C4: when no row with the filename exists yet, among N ≥ 1 serialised
atomic reservation attempts for the same filename exactly the first succeeds,
the other N−1 observe insert-count zero, and exactly one row with that
filename exists afterward. -/
theorem reservation_exactly_one (db : List BookRow) (attempts : List BookRow)
    (fn : String)
    (hfn : ∀ b ∈ attempts, b.filename = fn)
    (hnew : (db.any (fun r => r.filename = fn)) = false)
    (hne : attempts ≠ []) :
    ((runReservations db attempts).2.count true = 1 ∧
     (runReservations db attempts).2.count false = attempts.length - 1) ∧
    ((runReservations db attempts).1.filter
      (fun r => r.filename = fn)).length = 1 := by
  cases attempts with
  | nil => exact absurd rfl hne
  | cons b rest =>
    have hb : b.filename = fn := hfn b (by simp)
    have hnoconf : (db.any (fun r => r.filename = b.filename)) = false := by
      rw [hb]; exact hnew
    have hstep : reserveInsert db b = (db ++ [b], true) := by
      simp [reserveInsert, hnoconf]
    have hconf2 : ((db ++ [b]).any (fun r => r.filename = fn)) = true := by
      simp [hb]
    have hrest := runReservations_all_conflict rest (db ++ [b])
      (fun c hc => hfn c (by simp [hc])) hconf2
    simp only [runReservations, hstep, hrest]
    refine ⟨⟨?_, ?_⟩, ?_⟩
    · simp [List.count_replicate]
    · simp [List.count_replicate]
    · simp only [List.filter_append]
      rw [List.length_append]
      have h1 : (db.filter (fun r => r.filename = fn)).length = 0 := by
        simp only [List.length_eq_zero]
        rw [List.filter_eq_nil_iff]
        intro a ha
        by_contra hcontra
        have : db.any (fun r => r.filename = fn) = true := by
          rw [List.any_eq_true]
          exact ⟨a, ha, by simpa using hcontra⟩
        rw [this] at hnew
        cases hnew
      rw [h1]
      simp [hb]

/-- Witness for C4: three concurrent attempts for `"f.pdf"` starting from an
empty table. -/
theorem reservation_exactly_one_witness :
    ((runReservations []
        [⟨"i1", "f.pdf", "p1"⟩, ⟨"i2", "f.pdf", "p2"⟩, ⟨"i3", "f.pdf", "p3"⟩]).2.count true = 1 ∧
     (runReservations []
        [⟨"i1", "f.pdf", "p1"⟩, ⟨"i2", "f.pdf", "p2"⟩, ⟨"i3", "f.pdf", "p3"⟩]).2.count false = 3 - 1) ∧
    ((runReservations []
        [⟨"i1", "f.pdf", "p1"⟩, ⟨"i2", "f.pdf", "p2"⟩, ⟨"i3", "f.pdf", "p3"⟩]).1.filter
      (fun r => r.filename = "f.pdf")).length = 1 := by
  have := reservation_exactly_one []
    [⟨"i1", "f.pdf", "p1"⟩, ⟨"i2", "f.pdf", "p2"⟩, ⟨"i3", "f.pdf", "p3"⟩]
    "f.pdf" (by decide) (by decide) (by decide)
  simpa using this

/-- Counterexample to C6 as stated: a spawn failure is reported under the
same `EXIT_NON_ZERO` code as a non-zero exit (the code's
`MarkitDownErrorCode` union has no `SPAWN_FAILURE` member), so there is no
distinct fourth failure mode. -/
theorem convert_spawn_failure_not_distinct :
    convErrCode (convertPdfToMarkdown 300000 52428800 (.spawnError "ENOENT")) =
      some .EXIT_NON_ZERO ∧
    convErrCode (convertPdfToMarkdown 300000 52428800 (.closed 1 [] [])) =
      some .EXIT_NON_ZERO := by
  constructor <;> rfl

/-- C6 (amended): `convertPdfToMarkdown` fails with exactly three
distinguishable error codes — TIMEOUT (wall clock exceeded, process
force-killed), SIZE_EXCEEDED (streamed output over the cap, force-killed)
and EXIT_NON_ZERO (non-zero exit, with a stderr excerpt bounded to 2000
characters); a spawn failure is reported under EXIT_NON_ZERO with a
distinct "Failed to spawn markitdown:" message, not a distinct code. -/
theorem convert_failure_modes (timeoutMs maxBytes : Nat) (errText : String)
    (code : Int) (stdout stderr : List Char) :
    convertPdfToMarkdown timeoutMs maxBytes .timeout =
      .error ⟨.TIMEOUT, "markitdown timed out after " ++ toString timeoutMs ++ "ms",
        none⟩ ∧
    procKilled .timeout = true ∧
    convertPdfToMarkdown timeoutMs maxBytes .sizeExceeded =
      .error ⟨.SIZE_EXCEEDED,
        "markitdown output exceeded " ++ toString maxBytes ++ " bytes", none⟩ ∧
    procKilled .sizeExceeded = true ∧
    (code ≠ 0 →
      convertPdfToMarkdown timeoutMs maxBytes (.closed code stdout stderr) =
        .error ⟨.EXIT_NON_ZERO, "markitdown exited with code " ++ toString code,
          some (stderr.take 2000)⟩ ∧
      (stderr.take 2000).length ≤ 2000) ∧
    convertPdfToMarkdown timeoutMs maxBytes (.spawnError errText) =
      .error ⟨.EXIT_NON_ZERO, "Failed to spawn markitdown: " ++ errText, none⟩ ∧
    convertPdfToMarkdown timeoutMs maxBytes (.closed 0 stdout stderr) = .ok stdout := by
  refine ⟨rfl, rfl, rfl, rfl, ?_, rfl, by simp [convertPdfToMarkdown]⟩
  intro hc
  refine ⟨by simp [convertPdfToMarkdown, hc], ?_⟩
  simpa using List.length_take_le 2000 stderr

/-- Witness for C6's amended theorem: the non-zero-exit conjunct at a
concrete event. -/
theorem convert_failure_modes_witness :
    convertPdfToMarkdown 300000 52428800 (.closed 1 [] ['e']) =
      .error ⟨.EXIT_NON_ZERO, "markitdown exited with code " ++ toString (1 : Int),
        some (['e'].take 2000)⟩ ∧
    ((['e'] : List Char).take 2000).length ≤ 2000 :=
  (convert_failure_modes 300000 52428800 "x" 1 [] ['e']).2.2.2.2.1 (by decide)

lemma schedStep_inv {w : SchedWorld} (h : SchedInv w) (st : SchedStep) :
    SchedInv (schedStep w st) := by
  cases st with
  | tickAt now cid =>
    by_cases hr : w.sched.isRunning
    · simp [schedStep, tick, attemptBegin, hr, SchedInv] at h ⊢
      simp [h, hr]
    · simp [schedStep, tick, attemptBegin, hr, SchedInv] at h ⊢
      simp [h]
  | finishAt now res =>
    by_cases ha : 0 < w.activePasses
    · have hr : w.sched.isRunning = true := by
        by_contra hc
        simp only [SchedInv] at h
        rw [if_neg hc] at h
        omega
      have h1 : w.activePasses = 1 := by
        simp only [SchedInv] at h
        rw [hr] at h
        simpa using h
      simp [schedStep, ha, attemptEnd, SchedInv, h1]
    · simpa [schedStep, ha] using h

lemma schedRun_inv (steps : List SchedStep) :
    ∀ w, SchedInv w → SchedInv (schedRun w steps) := by
  induction steps with
  | nil => intro w h; simpa [schedRun] using h
  | cons st rest ih =>
    intro w h
    have := schedStep_inv h st
    simpa [schedRun, List.foldl_cons] using ih (schedStep w st) this

/-- C9 (amended): while a pass is running, a further tick starts no new pass
and leaves every scheduler field unchanged except `lastTickAt`, which
`tick()` records unconditionally; a direct `attemptRunIfIdle` call is a full
no-op; and along any interleaving from the initial state at most one pass is
in flight at a time. -/
theorem scheduler_tick_while_running (now : Nat) (cid : String)
    (s : SchedState) (hrun : s.isRunning = true) :
    tick now cid s = ({ s with lastTickAt := now }, false) ∧
    attemptBegin now cid s = (s, false) ∧
    (∀ steps : List SchedStep,
      (schedRun initSchedWorld steps).activePasses ≤ 1) := by
  refine ⟨by simp [tick, attemptBegin, hrun], by simp [attemptBegin, hrun], ?_⟩
  intro steps
  have hinv : SchedInv (schedRun initSchedWorld steps) :=
    schedRun_inv steps initSchedWorld (by simp [SchedInv, initSchedWorld])
  rw [hinv]
  split <;> omega

/-- Counterexample to C9 as stated: a tick during a running pass starts no
pass but does change scheduler state — it moves `lastTickAt` (and with it
the advertised next-run estimate). -/
theorem scheduler_tick_while_running_counterexample :
    (tick 5 "c2" sRunning).2 = false ∧ (tick 5 "c2" sRunning).1 ≠ sRunning := by
  decide

/-- Witness for C9's amended theorem at a concrete running state. -/
theorem scheduler_tick_while_running_witness :
    tick 5 "c2" sRunning = ({ sRunning with lastTickAt := 5 }, false) ∧
    (schedRun initSchedWorld
      [SchedStep.tickAt 1 "a", SchedStep.tickAt 2 "b"]).activePasses ≤ 1 :=
  ⟨(scheduler_tick_while_running 5 "c2" sRunning rfl).1,
   (scheduler_tick_while_running 5 "c2" sRunning rfl).2.2
     [SchedStep.tickAt 1 "a", SchedStep.tickAt 2 "b"]⟩

/-- Counterexample to C5 as stated: when the hash-duplicate SELECT itself
throws (it runs before the try/catch), `indexSingleFile` rejects instead of
returning a structured result. -/
theorem indexSingleFile_counterexample :
    indexSingleFile 32
      { sEnvBase with hashLookup := .error (some "db down") } =
      .error (some "db down") := rfl

/-- C5 (amended): provided the hash-duplicate lookup queries (which run
before the try/catch) succeed, `indexSingleFile` returns a structured
`SingleFileResult` rather than throwing; a hash match returns the existing
record's id, filename and committed chunk count as `already_exists`; a
filename-reservation conflict re-checks by filename and returns the existing
record's data. -/
theorem indexSingleFile_structured (bs : Nat) (env : SingleEnv) :
    (env.fileHash = none → indexSingleFile bs env = .ok (tryBody bs env)) ∧
    (∀ h, env.fileHash = some h → env.hashLookup = .ok none →
      indexSingleFile bs env = .ok (tryBody bs env)) ∧
    (∀ h id fn cnt, env.fileHash = some h →
      env.hashLookup = .ok (some (id, fn)) → env.hashChunkCount = .ok cnt →
      indexSingleFile bs env = .ok { success := true, book_id := id,
                                     filename := fn, chunks_count := cnt,
                                     status := .already_exists,
                                     error := none }) ∧
    (∀ id2 cnt, env.insertRes = .ok false → env.nameLookup = .ok (some id2) →
      env.nameChunkCount = .ok cnt →
      tryBody bs env = { success := true, book_id := id2,
                         filename := env.filename, chunks_count := cnt,
                         status := .already_exists, error := none }) := by
  refine ⟨?_, ?_, ?_, ?_⟩
  · intro hh
    simp [indexSingleFile, hh]
  · intro h hh hl
    simp [indexSingleFile, hh, hl]
  · intro h id fn cnt hh hl hc
    simp [indexSingleFile, hh, hl, hc]
  · intro id2 cnt hres hl hc
    simp [tryBody, hres, hl, hc]

/-- Witness for C5's amended theorem: the hash-duplicate conjunct at a
concrete environment. -/
theorem indexSingleFile_structured_witness :
    indexSingleFile 32
      { sEnvBase with
        hashLookup := .ok (some ("b0", "old.pdf"))
        hashChunkCount := .ok 7 } =
      .ok { success := true, book_id := "b0", filename := "old.pdf",
            chunks_count := 7, status := .already_exists, error := none } :=
  (indexSingleFile_structured 32
    { sEnvBase with
      hashLookup := .ok (some ("b0", "old.pdf"))
      hashChunkCount := .ok 7 }).2.2.1 "h1" "b0" "old.pdf" 7 rfl rfl rfl

lemma chainOk_of_gatedB {g : String} {p : Ev → Bool} {l : List Ev}
    (h : gatedB g p l = true) (prev : Ev) : chainOk g p prev l = true := by
  cases l with
  | nil => rfl
  | cons e rest =>
    simp only [gatedB, Bool.and_eq_true] at h
    simp [chainOk, h.1, h.2]

lemma chainOk_append {g : String} {p : Ev → Bool} :
    ∀ (xs : List Ev) (prev : Ev) (ys : List Ev),
    chainOk g p prev xs = true → gatedB g p ys = true →
    chainOk g p prev (xs ++ ys) = true := by
  intro xs
  induction xs with
  | nil => intro prev ys _ hy; simpa using chainOk_of_gatedB hy prev
  | cons e rest ih =>
    intro prev ys hx hy
    simp only [chainOk, Bool.and_eq_true] at hx
    simp only [List.cons_append, chainOk, Bool.and_eq_true]
    exact ⟨hx.1, ih e ys hx.2 hy⟩

lemma gatedB_append {g : String} {p : Ev → Bool} {xs ys : List Ev}
    (hx : gatedB g p xs = true) (hy : gatedB g p ys = true) :
    gatedB g p (xs ++ ys) = true := by
  cases xs with
  | nil => simpa using hy
  | cons e rest =>
    simp only [gatedB, Bool.and_eq_true] at hx
    simp only [List.cons_append, gatedB, Bool.and_eq_true]
    exact ⟨hx.1, chainOk_append rest e ys hx.2 hy⟩

lemma gatedB_flatten {g : String} {p : Ev → Bool} :
    ∀ (ls : List (List Ev)), (∀ l ∈ ls, gatedB g p l = true) →
    gatedB g p ls.flatten = true := by
  intro ls
  induction ls with
  | nil => intro _; rfl
  | cons l rest ih =>
    intro h
    rw [List.flatten_cons]
    exact gatedB_append (h l (by simp)) (ih (fun l2 hl2 => h l2 (by simp [hl2])))

lemma gatedB_of_none {g : String} {p : Ev → Bool} :
    ∀ (l : List Ev), (∀ e ∈ l, p e = false) → gatedB g p l = true := by
  have hchain : ∀ (l : List Ev) (prev : Ev), (∀ e ∈ l, p e = false) →
      chainOk g p prev l = true := by
    intro l
    induction l with
    | nil => intro _ _; rfl
    | cons e rest ih =>
      intro prev h
      simp only [chainOk, Bool.and_eq_true]
      exact ⟨by simp [h e (by simp)], ih e (fun e2 he2 => h e2 (by simp [he2]))⟩
  intro l h
  cases l with
  | nil => rfl
  | cons e rest =>
    simp only [gatedB, Bool.and_eq_true]
    exact ⟨by simp [h e (by simp)],
      hchain rest e (fun e2 he2 => h e2 (by simp [he2]))⟩

lemma runBatches_events (env : FileEnv) (bs : Nat) :
    ∀ (idx : Nat) (d : DocState) (chunks : List (List Char)),
    gatedB "before-embed-batch" isEmbedEv (runBatches env bs idx d chunks).2.2 = true ∧
    (∀ e ∈ (runBatches env bs idx d chunks).2.2, isConvertEv e = false) := by
  intro idx d chunks
  induction idx, d, chunks using runBatches.induct env bs with
  | case1 idx d => simp [runBatches, gatedB]
  | case2 idx d c0 rest h0 => simp [runBatches, h0, gatedB]
  | case3 idx d c0 rest h0 e he =>
    simp only [runBatches, dif_neg h0, he]
    refine ⟨?_, ?_⟩
    · simp [gatedB, chainOk, isEmbedEv]
    · intro ev hev
      simp only [List.mem_cons, List.not_mem_nil, or_false] at hev
      rcases hev with rfl | rfl <;> simp [isConvertEv]
  | case4 idx d c0 rest h0 u he e hte =>
    simp only [runBatches, dif_neg h0, he, hte]
    refine ⟨?_, ?_⟩
    · simp [gatedB, chainOk, isEmbedEv]
    · intro ev hev
      simp only [List.mem_cons, List.not_mem_nil, or_false] at hev
      rcases hev with rfl | rfl | rfl <;> simp [isConvertEv]
  | case5 idx d c0 rest h0 u he v hte ih =>
    simp only [runBatches, dif_neg h0, he, hte]
    refine ⟨?_, ?_⟩
    · simp only [gatedB, chainOk, Bool.and_eq_true]
      refine ⟨by simp [isEmbedEv], by simp [isEmbedEv], by simp [isEmbedEv], ?_⟩
      exact chainOk_of_gatedB ih.1 (Ev.txEv idx)
    · intro ev hev
      simp only [List.mem_cons] at hev
      rcases hev with rfl | rfl | rfl | h1
      · simp [isConvertEv]
      · simp [isConvertEv]
      · simp [isConvertEv]
      · exact ih.2 ev h1

lemma processFile_events (bs : Nat) (env : FileEnv) :
    gatedB "before-convert" isConvertEv (processFile bs env).2.2 = true ∧
    gatedB "before-embed-batch" isEmbedEv (processFile bs env).2.2 = true := by
  have hrb := runBatches_events env bs
  cases hres : env.insertRes with
  | error e => simp [processFile, hres, gatedB]
  | ok b =>
    cases b with
    | false => simp [processFile, hres, gatedB]
    | true =>
      cases hconv : env.convert with
      | error e =>
        simp [processFile, hres, hconv, gatedB, chainOk, isConvertEv, isEmbedEv]
      | ok md =>
        by_cases hz : (chunkMarkdown md).length = 0
        · simp [processFile, hres, hconv, hz, gatedB, chainOk, isConvertEv, isEmbedEv]
        · obtain ⟨hemb, hnoconv⟩ := hrb 0 (d1Of env) (chunkMarkdown md)
          have hz2 : ¬(chunkMarkdown md = []) := by
            simpa [List.length_eq_zero] using hz
          have hchain1 : chainOk "before-convert" isConvertEv Ev.convertEv
              (runBatches env bs 0 (d1Of env) (chunkMarkdown md)).2.2 = true := by
            have hgb : gatedB "before-convert" isConvertEv
                (runBatches env bs 0 (d1Of env) (chunkMarkdown md)).2.2 = true :=
              gatedB_of_none _ hnoconv
            exact chainOk_of_gatedB hgb Ev.convertEv
          have hchain2 : chainOk "before-embed-batch" isEmbedEv Ev.convertEv
              (runBatches env bs 0 (d1Of env) (chunkMarkdown md)).2.2 = true :=
            chainOk_of_gatedB hemb Ev.convertEv
          cases hrb2 : (runBatches env bs 0 (d1Of env) (chunkMarkdown md)).2.1 with
          | some bf =>
            constructor
            · simp only [processFile, hres, hconv, hrb2]
              simp [hz2, gatedB, chainOk, isConvertEv, hchain1]
            · simp only [processFile, hres, hconv, hrb2]
              simp [hz2, gatedB, chainOk, isEmbedEv, hchain2]
          | none =>
            constructor
            · simp only [processFile, hres, hconv, hrb2]
              simp [hz2, gatedB, chainOk, isConvertEv, hchain1]
            · simp only [processFile, hres, hconv, hrb2]
              simp [hz2, gatedB, chainOk, isEmbedEv, hchain2]

/-- C8: the window predicate compares the local hour in the configured
timezone (`Europe/Amsterdam`) against 08:00 inclusive – 21:00 exclusive; an
out-of-window call suspends, polling with 60-second sleeps, and returns at
the first check whose hour is inside the window; and the gate runs before
the pass starts, immediately before each conversion, and immediately before
each embedding batch. -/
theorem business_hours_gate (h : Nat → Nat)
    (hex : ∃ k, isWithinBusinessHoursEuropeAmsterdam (h k) = true)
    (bs : Nat) (envs : List FileEnv) :
    BUSINESS_TZ = "Europe/Amsterdam" ∧
    (∀ hour, isWithinBusinessHoursEuropeAmsterdam hour = true ↔
      (8 ≤ hour ∧ hour < 21)) ∧
    SLEEP_MS = 60000 ∧
    isWithinBusinessHoursEuropeAmsterdam (h (waitPollIndex h hex)) = true ∧
    (∀ j, j < waitPollIndex h hex →
      isWithinBusinessHoursEuropeAmsterdam (h j) = false) ∧
    (runScanEvents bs envs).head? = some (Ev.gate "run-start") ∧
    gatedB "before-convert" isConvertEv (runScanEvents bs envs) = true ∧
    gatedB "before-embed-batch" isEmbedEv (runScanEvents bs envs) = true := by
  refine ⟨rfl, ?_, rfl, ?_, ?_, rfl, ?_, ?_⟩
  · intro hour
    simp [isWithinBusinessHoursEuropeAmsterdam]
  · exact Nat.find_spec hex
  · intro j hj
    have := Nat.find_min hex hj
    simpa using this
  · have hfiles : gatedB "before-convert" isConvertEv
        ((envs.map (fun e => (processFile bs e).2.2)).flatten) = true := by
      refine gatedB_flatten _ ?_
      intro l hl
      obtain ⟨env2, _, rfl⟩ := List.mem_map.mp hl
      exact (processFile_events bs env2).1
    simp only [runScanEvents, gatedB, Bool.and_eq_true]
    exact ⟨by simp [isConvertEv], chainOk_of_gatedB hfiles (Ev.gate "run-start")⟩
  · have hfiles : gatedB "before-embed-batch" isEmbedEv
        ((envs.map (fun e => (processFile bs e).2.2)).flatten) = true := by
      refine gatedB_flatten _ ?_
      intro l hl
      obtain ⟨env2, _, rfl⟩ := List.mem_map.mp hl
      exact (processFile_events bs env2).2
    simp only [runScanEvents, gatedB, Bool.and_eq_true]
    exact ⟨by simp [isEmbedEv], chainOk_of_gatedB hfiles (Ev.gate "run-start")⟩

/-- Witness for C8 at a constant in-window clock and one concrete file. -/
theorem business_hours_gate_witness :
    BUSINESS_TZ = "Europe/Amsterdam" ∧
    (isWithinBusinessHoursEuropeAmsterdam 12 = true ↔ (8 ≤ 12 ∧ 12 < 21)) ∧
    gatedB "before-convert" isConvertEv (runScanEvents 32 [envZeroChunks]) = true :=
  have t := business_hours_gate (fun _ => 12) ⟨0, by decide⟩ 32 [envZeroChunks]
  ⟨t.1, t.2.1 12, t.2.2.2.2.2.2.1⟩

end Librarian
